import Mathlib

/-!
# Verification of the ray-tracing engine (BVH build, ray kernel, integrator, driver)

Shallow embedding of the Rust source (`src/bvh.rs`, `src/ray.rs`, `src/vector.rs`,
`src/scene.rs`, `src/texture.rs`, `src/renderer.rs`) and proofs about it.

## Modelling conventions

* `f32` values are modelled by `FF`: exact rationals extended with `+∞`, `-∞`
  and `NaN`.  Finite arithmetic is exact (sub-ULP rounding is not modelled), but
  results whose magnitude exceeds `f32::MAX` overflow to the correctly signed
  infinity, and all IEEE special-value rules (NaN propagation, `0 * ∞ = NaN`,
  `x / 0 = ±∞`, comparisons with NaN are false, Rust's NaN-dropping
  `f32::min` / `f32::max`) are modelled faithfully.  IEEE `-0.0` compares equal
  to `0.0`, so both are represented by the rational `0`; division by an exact
  zero rounds towards `+0.0` semantics (`q / 0 = sign(q)·∞`), matching every
  concrete computation appearing below.
* Machine integers (`usize`, `u32`, `i32`) are `Nat` / `Int` with explicit
  wrapping (`% 2^32`) or saturation where the source relies on it.
* Rust panics (index out of bounds, `usize` underflow) are modelled by
  `Except Unit` errors in the BVH builder, whose recursion and loops take an
  explicit fuel argument; fuel exhaustion is also an error, so every `.ok`
  result corresponds to a real, completed execution.
* The transcendental primitives `f32::exp` and `f32::sqrt` are abstracted as a
  parameter record `FOps`; no settled claim depends on their values.
-/

/-- Largest finite `f32` value, `(2 - 2^-23) * 2^127 = 2^128 - 2^104`,
as an exact rational. -/
def f32MaxQ : ℚ := 340282346638528859811704183484516925440

/-- `f32` model: exact rationals plus the IEEE special values.
`inf true` is `+∞`, `inf false` is `-∞`. -/
inductive FF where
  | nan : FF
  | inf : Bool → FF
  | fin : ℚ → FF
deriving DecidableEq, Repr

namespace FF

/-- Build a finite value, overflowing to the signed infinity beyond `f32::MAX`. -/
def mk (q : ℚ) : FF :=
  if f32MaxQ < q then inf true
  else if q < -f32MaxQ then inf false
  else fin q

/-- IEEE `<` as a boolean (false whenever either side is NaN). -/
def blt : FF → FF → Bool
  | nan, _ => false
  | _, nan => false
  | fin a, fin b => decide (a < b)
  | fin _, inf s => s
  | inf s, fin _ => !s
  | inf s, inf t => !s && t

/-- IEEE `==` as a boolean (false whenever either side is NaN). -/
def beq : FF → FF → Bool
  | fin a, fin b => decide (a = b)
  | inf s, inf t => s == t
  | _, _ => false

/-- IEEE `<=` as a boolean. -/
def ble (a b : FF) : Bool := blt a b || beq a b

/-- IEEE negation. -/
def neg : FF → FF
  | nan => nan
  | inf s => inf (!s)
  | fin q => fin (-q)

/-- IEEE addition (exact on finite values, with overflow to infinity). -/
def add : FF → FF → FF
  | nan, _ => nan
  | _, nan => nan
  | inf s, inf t => if s = t then inf s else nan
  | inf s, fin _ => inf s
  | fin _, inf s => inf s
  | fin a, fin b => mk (a + b)

/-- IEEE subtraction. -/
def sub (a b : FF) : FF := add a (neg b)

/-- IEEE multiplication (`0 * ∞ = NaN`). -/
def mul : FF → FF → FF
  | nan, _ => nan
  | _, nan => nan
  | inf s, inf t => inf (s = t)
  | inf s, fin q => if q = 0 then nan else inf (s = decide (0 < q))
  | fin q, inf s => if q = 0 then nan else inf (s = decide (0 < q))
  | fin a, fin b => mk (a * b)

/-- IEEE division (`x / 0 = sign(x)·∞`, `0 / 0 = NaN`, `∞ / ∞ = NaN`). -/
def div : FF → FF → FF
  | nan, _ => nan
  | _, nan => nan
  | inf _, inf _ => nan
  | inf s, fin q => inf (s = decide (0 ≤ q))
  | fin _, inf _ => fin 0
  | fin a, fin b =>
    if b = 0 then (if a = 0 then nan else inf (decide (0 < a))) else mk (a / b)

/-- Rust `f32::min`: if one argument is NaN the other is returned. -/
def fmin : FF → FF → FF
  | nan, b => b
  | a, nan => a
  | a, b => if ble a b then a else b

/-- Rust `f32::max`: if one argument is NaN the other is returned. -/
def fmax : FF → FF → FF
  | nan, b => b
  | a, nan => a
  | a, b => if ble a b then b else a

/-- Cast of a (small) nonnegative machine integer to `f32`, modelled exactly. -/
def ofNat (n : Nat) : FF := fin n

/-- `f32::powi` (integer power by repeated multiplication, exact model). -/
def powi (x : FF) : Nat → FF
  | 0 => fin 1
  | n + 1 => mul (powi x n) x

/-- `f32::floor`. -/
def ffloor : FF → FF
  | nan => nan
  | inf s => inf s
  | fin q => fin ⌊q⌋

/-- Rust saturating `as i32` cast of an `f32` (`NaN → 0`, truncation toward
zero, saturation at the `i32` range). -/
def toI32 : FF → Int
  | nan => 0
  | inf true => 2 ^ 31 - 1
  | inf false => -2 ^ 31
  | fin q =>
    let t : Int := if 0 ≤ q then ⌊q⌋ else -⌊-q⌋
    max (-2 ^ 31) (min (2 ^ 31 - 1) t)

end FF

/-- `Vec3f`: three `f32` components (`src/vector.rs`). -/
structure V3 where
  x : FF
  y : FF
  z : FF
deriving DecidableEq, Repr

namespace V3

def vadd (a b : V3) : V3 := ⟨FF.add a.x b.x, FF.add a.y b.y, FF.add a.z b.z⟩

def vsub (a b : V3) : V3 := ⟨FF.sub a.x b.x, FF.sub a.y b.y, FF.sub a.z b.z⟩

def vmul (a b : V3) : V3 := ⟨FF.mul a.x b.x, FF.mul a.y b.y, FF.mul a.z b.z⟩

def vdiv (a b : V3) : V3 := ⟨FF.div a.x b.x, FF.div a.y b.y, FF.div a.z b.z⟩

/-- `Vec3f * f32`. -/
def smul (a : V3) (s : FF) : V3 := ⟨FF.mul a.x s, FF.mul a.y s, FF.mul a.z s⟩

/-- `Vec3f / f32`. -/
def sdiv (a : V3) (s : FF) : V3 := ⟨FF.div a.x s, FF.div a.y s, FF.div a.z s⟩

/-- `Vec3f::from(f32)` broadcast. -/
def bcast (s : FF) : V3 := ⟨s, s, s⟩

def dot (a b : V3) : FF :=
  FF.add (FF.add (FF.mul a.x b.x) (FF.mul a.y b.y)) (FF.mul a.z b.z)

def cross (a b : V3) : V3 :=
  ⟨FF.sub (FF.mul a.y b.z) (FF.mul a.z b.y),
   FF.sub (FF.mul a.z b.x) (FF.mul a.x b.z),
   FF.sub (FF.mul a.x b.y) (FF.mul a.y b.x)⟩

def vmin (a b : V3) : V3 := ⟨FF.fmin a.x b.x, FF.fmin a.y b.y, FF.fmin a.z b.z⟩

def vmax (a b : V3) : V3 := ⟨FF.fmax a.x b.x, FF.fmax a.y b.y, FF.fmax a.z b.z⟩

def reversed (a : V3) : V3 := ⟨FF.neg a.x, FF.neg a.y, FF.neg a.z⟩

/-- `data[i]` component access (axes 0, 1, 2). -/
def nth (a : V3) : Nat → FF
  | 0 => a.x
  | 1 => a.y
  | _ => a.z

def zero : V3 := ⟨FF.fin 0, FF.fin 0, FF.fin 0⟩

def one : V3 := ⟨FF.fin 1, FF.fin 1, FF.fin 1⟩

end V3

/-- `Vec3f::reflect`. -/
def reflect (incident normal : V3) : V3 :=
  V3.vsub incident (V3.smul (V3.smul normal (FF.fin 2)) (V3.dot incident normal))

/-- The discriminant `k` computed inside `Vec3f::refract`. -/
def refractK (incident normal : V3) (eta : FF) : FF :=
  FF.sub (FF.fin 1)
    (FF.mul (FF.mul eta eta)
      (FF.sub (FF.fin 1) (FF.mul (V3.dot normal incident) (V3.dot normal incident))))

/-- `Vec3f::refract` (`src/vector.rs:38-47`): total internal reflection
(`k < 0`) returns the zero vector. -/
def refract (incident normal : V3) (eta : FF) : V3 :=
  let k := refractK incident normal eta
  if FF.blt k (FF.fin 0) then V3.zero
  else
    let etaDotNI := FF.mul eta (V3.dot normal incident)
    V3.vsub (V3.smul incident eta)
      (V3.vmul (V3.bcast (FF.add etaDotNI (FF.fin 0))) normal)

/-- `Vertex` (`src/scene.rs`). -/
structure Vertex where
  px : FF
  py : FF
  pz : FF
  nx : FF
  ny : FF
  nz : FF
  tu : FF
  tv : FF
deriving DecidableEq, Repr

def Vertex.pos (v : Vertex) : V3 := ⟨v.px, v.py, v.pz⟩

def Vertex.nrm (v : Vertex) : V3 := ⟨v.nx, v.ny, v.nz⟩

/-- `Triangle` (three baked vertices and a material index). -/
structure Tri where
  v0 : Vertex
  v1 : Vertex
  v2 : Vertex
  materialId : Nat
deriving DecidableEq, Repr

/-- `Triangle::mid`: centroid of the three vertex positions. -/
def Tri.mid (t : Tri) : V3 :=
  ⟨FF.div (FF.add (FF.add t.v0.px t.v1.px) t.v2.px) (FF.fin 3),
   FF.div (FF.add (FF.add t.v0.py t.v1.py) t.v2.py) (FF.fin 3),
   FF.div (FF.add (FF.add t.v0.pz t.v1.pz) t.v2.pz) (FF.fin 3)⟩

/-- BVH `Node` (`src/bvh.rs:149-156`). -/
structure Node where
  bmin : V3
  bmax : V3
  childrenId : Nat
  firstTriId : Nat
  numTris : Nat
deriving DecidableEq, Repr

/-- `Node::default`: inverted infinite-ish box, everything zero. -/
def Node.dflt : Node :=
  { bmin := V3.bcast (FF.fin f32MaxQ)
    bmax := V3.bcast (FF.fin (-f32MaxQ))
    childrenId := 0
    firstTriId := 0
    numTris := 0 }

/-- `Node::grow_by_tri`: extend the AABB by the triangle's three positions. -/
def Node.growByTri (nd : Node) (t : Tri) : Node :=
  { nd with
    bmin := V3.vmin (V3.vmin (V3.vmin nd.bmin t.v0.pos) t.v1.pos) t.v2.pos
    bmax := V3.vmax (V3.vmax (V3.vmax nd.bmax t.v0.pos) t.v1.pos) t.v2.pos }

/-- `Node::extent`. -/
def Node.extent (nd : Node) : V3 := V3.vsub nd.bmax nd.bmin

/-- `Node::surface_area`: `(x*z) + (x*y) + (z*y)` of the extent. -/
def Node.surfaceArea (nd : Node) : FF :=
  let e := nd.extent
  FF.add (FF.add (FF.mul e.x e.z) (FF.mul e.x e.y)) (FF.mul e.z e.y)

/-- Grow a node by every triangle of a list (left fold, in list order). -/
def growList (nd : Node) (l : List Tri) : Node := l.foldl Node.growByTri nd

/-! ## BVH builder (`src/bvh.rs`) -/

/-- The slice `tris[first .. first + num)` a node owns. -/
def sliceOf (tris : List Tri) (first num : Nat) : List Tri :=
  (tris.drop first).take num

/-- One step of the `evaluate_sah` loop: route a triangle left or right of
`split_pos` by centroid and grow that side's box / count. -/
def sahStep (splitAxis : Nat) (splitPos : FF) (acc : Node × Node) (t : Tri) :
    Node × Node :=
  if FF.blt (t.mid.nth splitAxis) splitPos then
    ({ acc.1.growByTri t with numTris := acc.1.numTris + 1 }, acc.2)
  else
    (acc.1, { acc.2.growByTri t with numTris := acc.2.numTris + 1 })

/-- `BVH::evaluate_sah` (`src/bvh.rs:123-146`). -/
def evaluateSah (tris : List Tri) (nd : Node) (splitAxis : Nat) (splitPos : FF) :
    FF :=
  let lr := (sliceOf tris nd.firstTriId nd.numTris).foldl
    (sahStep splitAxis splitPos) (Node.dflt, Node.dflt)
  let cost := FF.add (FF.mul (FF.ofNat lr.1.numTris) lr.1.surfaceArea)
    (FF.mul (FF.ofNat lr.2.numTris) lr.2.surfaceArea)
  if FF.blt (FF.fin 0) cost then cost else FF.fin f32MaxQ

/-- The best-candidate search of `split_node`: 3 axes × 8 evenly spaced bins,
strict improvement only (first candidate wins ties), initial incumbent
`(axis 0, pos 0.0, cost f32::MAX)`. -/
def bestSplit (tris : List Tri) (nd : Node) : Nat × FF × FF :=
  (List.range 3).foldl
    (fun best splitAxis =>
      let scale := FF.div (nd.extent.nth splitAxis) (FF.fin 8)
      (List.range 8).foldl
        (fun best i =>
          let splitPos := FF.add (nd.bmin.nth splitAxis)
            (FF.mul (FF.ofNat i) scale)
          let splitCost := evaluateSah tris nd splitAxis splitPos
          if FF.blt splitCost best.2.2 then (splitAxis, splitPos, splitCost)
          else best)
        best)
    (0, FF.fin 0, FF.fin f32MaxQ)

/-- Swap two list positions (Rust `Vec::swap`). -/
def swapL (l : List Tri) (i j : Nat) : List Tri :=
  match l.get? i, l.get? j with
  | some a, some b => (l.set i b).set j a
  | _, _ => l

/-- The in-place two-pointer partition sweep of `split_node`
(`src/bvh.rs:84-93`).  `fuel` bounds the iteration count (one unit per
iteration; the caller passes enough).  Panics of the source — `usize`
underflow of `j` and out-of-bounds indexing — are `Except.error`. -/
def partitionLoop (splitAxis : Nat) (splitPos : FF) :
    Nat → Nat → Nat → List Tri → Except Unit (Nat × List Tri)
  | 0, _, _, _ => .error ()
  | fuel + 1, i, j, tris =>
    if i ≤ j then
      match tris.get? i with
      | none => .error ()
      | some t =>
        if FF.blt (t.mid.nth splitAxis) splitPos then
          partitionLoop splitAxis splitPos fuel (i + 1) j tris
        else
          if tris.length ≤ j then .error ()
          else if j = 0 then .error ()
          else partitionLoop splitAxis splitPos fuel i (j - 1) (swapL tris i j)
    else
      .ok (i, tris)

/-- BVH-builder state: the (reordered) triangle list and the node array. -/
structure BState where
  tris : List Tri
  nodes : List Node
deriving DecidableEq, Repr

/-- A fresh child node of `split_node`: bounds grown over its triangle
slice, with the slice's start and count. -/
def childNode (tris : List Tri) (f n : Nat) : Node :=
  { growList Node.dflt (sliceOf tris f n) with firstTriId := f, numTris := n }

/-- The entry node after a successful split: it becomes interior
(`children_id` set, `num_tris` zeroed), keeping its bounds. -/
def interiorOf (nd : Node) (c : Nat) : Node :=
  { nd with childrenId := c, numTris := 0 }

/-- `BVH::split_node` (`src/bvh.rs:54-121`), with explicit recursion fuel.
All panic paths of the source are `Except.error`. -/
def splitNode : Nat → Nat → BState → Except Unit BState
  | 0, _, _ => .error ()
  | fuel + 1, index, st =>
    match st.nodes.get? index with
    | none => .error ()
    | some nd =>
      if FF.ble (FF.mul (FF.ofNat nd.numTris) nd.surfaceArea)
          (bestSplit st.tris nd).2.2 then .ok st
      else
        if nd.firstTriId + nd.numTris = 0 then .error ()
        else
          match partitionLoop (bestSplit st.tris nd).1
            (bestSplit st.tris nd).2.1 (nd.numTris + 1) nd.firstTriId
            (nd.firstTriId + nd.numTris - 1) st.tris with
          | .error e => .error e
          | .ok (i, tris') =>
            if i - nd.firstTriId = 0 ∨ i - nd.firstTriId = nd.numTris then
              .ok { st with tris := tris' }
            else
              match splitNode fuel st.nodes.length
                { tris := tris'
                  nodes := (st.nodes.set index
                      (interiorOf nd st.nodes.length))
                    ++ [childNode tris' nd.firstTriId (i - nd.firstTriId),
                        childNode tris' i
                          (nd.numTris - (i - nd.firstTriId))] } with
              | .error e => .error e
              | .ok st'' => splitNode fuel (st.nodes.length + 1) st''

/-- `BVH::build` (`src/bvh.rs:13-52`): grow the root over all triangles, set
its count, push it, and recursively split from index 0.  The top-level fuel
`tris.length + 1` dominates the recursion depth (every split strictly
decreases the child triangle count). -/
def buildE (tris : List Tri) : Except Unit BState :=
  let root := { growList Node.dflt tris with firstTriId := 0, numTris := tris.length }
  splitNode (tris.length + 1) 0 { tris := tris, nodes := [root] }

/-! ## RNG (`src/vector.rs:99-111`) -/

/-- `Vec3f::xor_shift`: 32-bit xorshift (`x ^= x<<13; x ^= x>>17; x ^= x<<5`).
The input is reduced mod `2^32` to reflect the `u32` parameter type. -/
def xorShift (x0 : Nat) : Nat :=
  let x := x0 % 4294967296
  let a := x ^^^ ((x <<< 13) % 4294967296)
  let b := a ^^^ (a >>> 17)
  b ^^^ ((b <<< 5) % 4294967296)

/-- `Vec3f::rand_f32`: `xor_shift(input) as f32 / u32::MAX as f32`, returning
the drawn value together with the advanced state.  The `u32 → f32` casts and
the division are modelled exactly over the rationals. -/
def randF32 (rng : Nat) : FF × Nat :=
  let o := xorShift rng
  (FF.div (FF.fin (o : ℚ)) (FF.fin (4294967295 : ℚ)), o)

/-! ## Textures (`src/texture.rs`) -/

/-- `Texture`: width, height, row-major byte RGB pixels. -/
structure Texture where
  width : Nat
  height : Nat
  pixelData : List (Nat × Nat × Nat)
deriving DecidableEq, Repr

/-- The `while index > len - 1 { index -= len - 1 }` loop of
`Texture::color_at`, fuelled (the callers pass enough fuel whenever
`len ≥ 2`; the source diverges when `len ≤ 1`). -/
def wrapDown : Nat → Int → Int → Int
  | 0, _, idx => idx
  | fuel + 1, bound, idx =>
    if bound < idx then wrapDown fuel bound (idx - bound) else idx

/-- The `while index < 0 { index += len - 1 }` loop of `Texture::color_at`. -/
def wrapUp : Nat → Int → Int → Int
  | 0, _, idx => idx
  | fuel + 1, step, idx =>
    if idx < 0 then wrapUp fuel step (idx + step) else idx

/-- `Texture::color_at` (`src/texture.rs:27-38`).  The `i32` index arithmetic
is modelled on unbounded `Int` (its debug-build overflow panic is not
modelled), and the final indexing uses a default pixel out of range. -/
def colorAt (tex : Texture) (uv : FF × FF) : Nat × Nat × Nat :=
  let i := FF.toI32 (FF.mul uv.1 (FF.ofNat tex.width))
  let j := FF.toI32 (FF.mul uv.2 (FF.ofNat tex.height))
  let len : Int := tex.pixelData.length
  let idx0 : Int := i + j * tex.width
  let idx1 := wrapDown (idx0.natAbs + 1) (len - 1) idx0
  let idx2 := wrapUp (idx1.natAbs + 1) (len - 1) idx1
  tex.pixelData.getD idx2.toNat (0, 0, 0)

/-- `Vec3f::from([u8; 3])`: each channel divided by 255. -/
def v3OfColor (c : Nat × Nat × Nat) : V3 :=
  ⟨FF.div (FF.fin (c.1 : ℚ)) (FF.fin 255),
   FF.div (FF.fin (c.2.1 : ℚ)) (FF.fin 255),
   FF.div (FF.fin (c.2.2 : ℚ)) (FF.fin 255)⟩

/-! ## Scene (`src/scene.rs`) -/

/-- `Material`. -/
structure Material where
  baseColor : V3
  specularTint : V3
  emission : V3
  transmission : FF
  ior : FF
  roughness : FF
  metallic : FF
  baseColorTexId : Int
  emissionTexId : Int
deriving DecidableEq, Repr

/-- `Material::default` (the `name` string is irrelevant to the claims). -/
def Material.dflt : Material :=
  { baseColor := V3.one
    specularTint := V3.one
    emission := V3.zero
    transmission := FF.fin 0
    ior := FF.fin (145 / 100)
    roughness := FF.fin 1
    metallic := FF.fin 0
    baseColorTexId := -1
    emissionTexId := -1 }

/-- `Scene`: triangles, materials, textures and the BVH node array. -/
structure Scene where
  tris : List Tri
  materials : List Material
  textures : List Texture
  nodes : List Node
deriving DecidableEq, Repr

/-! ## Ray kernel (`src/ray.rs`) -/

/-- `Ray`. -/
structure RayS where
  origin : V3
  direction : V3
deriving DecidableEq, Repr

/-- `HitInfo`. -/
structure HitInfo where
  hasHit : Bool
  point : V3
  normal : V3
  distance : FF
  uv : FF × FF
  materialId : Nat
  frontFace : Bool
deriving DecidableEq, Repr

/-- `HitInfo::default` (distance `f32::MAX`). -/
def HitInfo.dflt : HitInfo :=
  { hasHit := false
    point := V3.zero
    normal := V3.zero
    distance := FF.fin f32MaxQ
    uv := (FF.fin 0, FF.fin 0)
    materialId := 0
    frontFace := false }

/-- The determinant computed by `Ray::intersect_tri`. -/
def triDet (ray : RayS) (t : Tri) : FF :=
  let edge1 := V3.vsub t.v1.pos t.v0.pos
  let edge2 := V3.vsub t.v2.pos t.v0.pos
  V3.dot edge1 (V3.cross ray.direction edge2)

/-- The barycentric `u` computed by `Ray::intersect_tri` (may be NaN/∞). -/
def triU (ray : RayS) (t : Tri) : FF :=
  let edge2 := V3.vsub t.v2.pos t.v0.pos
  let rayCrossE2 := V3.cross ray.direction edge2
  let s := V3.vsub ray.origin t.v0.pos
  FF.mul (FF.div (FF.fin 1) (triDet ray t)) (V3.dot s rayCrossE2)

/-- The barycentric `v` computed by `Ray::intersect_tri`. -/
def triV (ray : RayS) (t : Tri) : FF :=
  let edge1 := V3.vsub t.v1.pos t.v0.pos
  let s := V3.vsub ray.origin t.v0.pos
  let sCrossE1 := V3.cross s edge1
  FF.mul (FF.div (FF.fin 1) (triDet ray t)) (V3.dot ray.direction sCrossE1)

/-- The ray parameter `t` computed by `Ray::intersect_tri`. -/
def triT (ray : RayS) (t : Tri) : FF :=
  let edge1 := V3.vsub t.v1.pos t.v0.pos
  let edge2 := V3.vsub t.v2.pos t.v0.pos
  let s := V3.vsub ray.origin t.v0.pos
  let sCrossE1 := V3.cross s edge1
  FF.mul (FF.div (FF.fin 1) (triDet ray t)) (V3.dot edge2 sCrossE1)

/-- `Ray::intersect_tri` (`src/ray.rs:19-80`), Möller-Trumbore. -/
def intersectTri (ray : RayS) (tri : Tri) : HitInfo :=
  let det := triDet ray tri
  let u := triU ray tri
  let v := triV ray tri
  let t := triT ray tri
  let frontFace := FF.blt (FF.fin 0) det
  let hitPoint := V3.vadd ray.origin (V3.smul ray.direction t)
  let normal0 := V3.vadd
    (V3.vadd (V3.smul tri.v0.nrm (FF.sub (FF.sub (FF.fin 1) u) v))
      (V3.smul tri.v1.nrm u))
    (V3.smul tri.v2.nrm v)
  let normal := if !frontFace then normal0.reversed else normal0
  let t0 : V3 := ⟨tri.v0.tu, tri.v0.tv, FF.fin 0⟩
  let t1 : V3 := ⟨tri.v1.tu, tri.v1.tv, FF.fin 0⟩
  let t2 : V3 := ⟨tri.v2.tu, tri.v2.tv, FF.fin 0⟩
  let uvv := V3.vadd (V3.vadd (V3.smul t0 (FF.sub (FF.sub (FF.fin 1) u) v))
    (V3.smul t1 u)) (V3.smul t2 v)
  { hasHit :=
      FF.blt (FF.fin (1 / 10000)) t
        && !(FF.blt det (FF.fin 0) && FF.blt (FF.fin 0) det)
        && !(FF.blt u (FF.fin 0) || FF.blt (FF.fin 1) u)
        && !(FF.blt v (FF.fin 0) || FF.blt (FF.fin 1) (FF.add u v))
    point := hitPoint
    normal := normal
    distance := t
    uv := (uvv.x, uvv.y)
    materialId := tri.materialId
    frontFace := frontFace }

/-- `Ray::intersect_node` (`src/ray.rs:82-90`): slab test with `ε = 1e-4`. -/
def intersectNode (ray : RayS) (nd : Node) : Bool :=
  let tMin := V3.vdiv (V3.vsub nd.bmin ray.origin) ray.direction
  let tMax := V3.vdiv (V3.vsub nd.bmax ray.origin) ray.direction
  let t1 := V3.vsub (V3.vmin tMin tMax) (V3.bcast (FF.fin (1 / 10000)))
  let t2 := V3.vadd (V3.vmax tMin tMax) (V3.bcast (FF.fin (1 / 10000)))
  let tNear := FF.fmax (FF.fmax t1.x t1.y) t1.z
  let tFar := FF.fmin (FF.fmin t2.x t2.y) t2.z
  FF.blt tNear tFar && FF.blt (FF.fin 0) tFar

/-- `Ray::traverse_bvh` (`src/ray.rs:92-109`), with recursion fuel.
Fuel exhaustion and a missing node return the accumulator unchanged; both are
unreachable on scenes produced by a completed `BVH::build` (child indices
strictly increase). -/
def traverseBvh (scene : Scene) (ray : RayS) :
    Nat → Nat → HitInfo → HitInfo
  | 0, _, hi => hi
  | fuel + 1, index, hi =>
    match scene.nodes.get? index with
    | none => hi
    | some nd =>
      if !intersectNode ray nd then hi
      else if 0 < nd.numTris then
        (sliceOf scene.tris nd.firstTriId nd.numTris).foldl
          (fun acc tri =>
            let tmp := intersectTri ray tri
            if tmp.hasHit && FF.blt tmp.distance acc.distance then tmp else acc)
          hi
      else
        traverseBvh scene ray fuel (nd.childrenId + 1)
          (traverseBvh scene ray fuel nd.childrenId hi)

/-- `Ray::debug_bvh` (`src/ray.rs:111-128`). -/
def debugBvh (scene : Scene) (ray : RayS) : Nat → Nat → V3 → V3
  | 0, _, c => c
  | fuel + 1, index, c =>
    match scene.nodes.get? index with
    | none => c
    | some nd =>
      if !intersectNode ray nd then c
      else if 0 < nd.numTris then
        if 4 < nd.numTris then V3.vadd c ⟨FF.fin (5 / 100), FF.fin 0, FF.fin 0⟩
        else V3.vadd c ⟨FF.fin 0, FF.fin (5 / 100), FF.fin 0⟩
      else
        let c' := V3.vadd c ⟨FF.fin 0, FF.fin 0, FF.fin (5 / 1000)⟩
        debugBvh scene ray fuel (nd.childrenId + 1)
          (debugBvh scene ray fuel nd.childrenId c')

/-- Abstracted transcendental `f32` primitives used by the integrator. -/
structure FOps where
  fexp : FF → FF
  fsqrt : FF → FF

/-- `Vec3f::length`. -/
def vlength (ops : FOps) (v : V3) : FF :=
  ops.fsqrt (FF.add (FF.add (FF.mul v.x v.x) (FF.mul v.y v.y)) (FF.mul v.z v.z))

/-- `Vec3f::normalized` (each component divided by the length). -/
def vnormalized (ops : FOps) (v : V3) : V3 :=
  ⟨FF.div v.x (vlength ops v), FF.div v.y (vlength ops v),
   FF.div v.z (vlength ops v)⟩

/-- `Vec3f::distance`. -/
def vdistance (ops : FOps) (a b : V3) : FF := vlength ops (V3.vsub a b)

/-- `Ray::schlick_fresnel` (`src/ray.rs:130-133`). -/
def schlickFresnel (nDotV ior : FF) : FF :=
  let f0 := FF.div (FF.powi (FF.sub ior (FF.fin 1)) 2)
    (FF.powi (FF.add ior (FF.fin 1)) 2)
  FF.add f0 (FF.mul (FF.sub (FF.fin 1) f0) (FF.powi (FF.sub (FF.fin 1) nDotV) 5))

/-- Mutable state of the `Ray::trace` bounce loop. -/
structure TState where
  ray : RayS
  rayColor : V3
  incoming : V3
  emitted : V3
  prevHit : V3
  transDist : FF
  rng : Nat
  bounces : Nat
deriving DecidableEq, Repr

/-- One iteration of the `Ray::trace` bounce loop (`src/ray.rs:150-217`,
non-debug path).  Returns the updated state and whether the loop continues
(`false` models the `break` on a miss). -/
def bounceStep (ops : FOps) (scene : Scene) (st : TState) : TState × Bool :=
  let hi := traverseBvh scene st.ray (scene.nodes.length + 1) 0 HitInfo.dflt
  if hi.hasHit then
    let m := scene.materials.getD hi.materialId Material.dflt
    let ior := if hi.frontFace then FF.div (FF.fin 1) m.ior else m.ior
    let prevHit' := if hi.frontFace then hi.point else st.prevHit
    let transDist' := if hi.frontFace then st.transDist
      else vdistance ops hi.point st.prevHit
    let fres := schlickFresnel (V3.dot hi.normal st.ray.direction.reversed) ior
    let rnd := randF32 st.rng
    let newDir := if FF.blt rnd.1 fres then reflect st.ray.direction hi.normal
      else refract st.ray.direction hi.normal ior
    let rayColor' :=
      if FF.blt rnd.1 fres then V3.vmul st.rayColor m.specularTint
      else if m.baseColorTexId ≠ -1 then
        V3.vmul st.rayColor
          (v3OfColor (colorAt (scene.textures.getD m.baseColorTexId.toNat
            ⟨0, 0, []⟩) hi.uv))
      else V3.vmul st.rayColor m.baseColor
    let emitted' :=
      if m.emissionTexId ≠ -1 then
        V3.vadd st.emitted
          (v3OfColor (colorAt (scene.textures.getD m.emissionTexId.toNat
            ⟨0, 0, []⟩) hi.uv))
      else V3.vadd st.emitted m.emission
    let absorption : V3 :=
      ⟨ops.fexp (FF.mul (FF.fin (-1 / 10)) transDist'),
       ops.fexp (FF.mul (FF.fin (-3)) transDist'),
       ops.fexp (FF.mul (FF.fin (-5)) transDist')⟩
    let rayColor'' := V3.vmul rayColor' absorption
    let incoming' := V3.vadd st.incoming (V3.vmul emitted' rayColor'')
    ({ ray := ⟨V3.vadd hi.point (V3.smul newDir (FF.fin (1 / 10000))), newDir⟩
       rayColor := rayColor''
       incoming := incoming'
       emitted := emitted'
       prevHit := prevHit'
       transDist := transDist'
       rng := rnd.2
       bounces := st.bounces + 1 }, true)
  else
    let rayColor' := V3.vmul st.rayColor V3.one
    let emitted' := V3.vadd st.emitted (V3.bcast (FF.fin 1))
    ({ st with
       rayColor := rayColor'
       emitted := emitted'
       incoming := V3.vadd st.incoming (V3.vmul emitted' rayColor') }, false)

/-- The `while curr_bounces < max_bounces` loop of `Ray::trace`, structurally
recursive on the remaining iteration count. -/
def traceLoop (ops : FOps) (scene : Scene) : Nat → TState → TState
  | 0, st => st
  | n + 1, st =>
    let r := bounceStep ops scene st
    if r.2 then traceLoop ops scene n r.1 else r.1

/-- Initial `Ray::trace` state. -/
def TState.init (ray : RayS) (rng : Nat) : TState :=
  { ray := ray
    rayColor := V3.one
    incoming := V3.zero
    emitted := V3.zero
    prevHit := ray.origin
    transDist := FF.fin 0
    rng := rng
    bounces := 0 }

/-- `Ray::trace` (`src/ray.rs:135-224`): returns the traced radiance and the
advanced RNG state (the source mutates `rng_state` through `&mut`). -/
def trace (ops : FOps) (scene : Scene) (maxBounces : Nat) (debug : Bool)
    (ray : RayS) (rng : Nat) : V3 × Nat :=
  if debug && decide (0 < maxBounces) then
    (debugBvh scene ray (scene.nodes.length + 1) 0 V3.zero, rng)
  else
    let r := traceLoop ops scene maxBounces (TState.init ray rng)
    (if r.bounces = 0 then r.incoming
     else V3.sdiv r.incoming (FF.ofNat r.bounces), r.rng)

/-! ## Parallel pixel driver (`src/renderer.rs`) -/

/-- `Parameters`. -/
structure RParams where
  samples : Nat
  maxRayDepth : Nat
  debugMode : Bool
  cameraPos : V3
  cameraTarget : V3
  cameraUp : V3
deriving DecidableEq, Repr

/-- The per-pixel RNG seed of `render_to_image`:
`987612486u32.wrapping_mul((index as u32).wrapping_add(87636354u32))`. -/
def seedOf (i : Nat) : Nat :=
  987612486 * ((i % 4294967296 + 87636354) % 4294967296) % 4294967296

/-- `Vec3f::linear_to_gamma`: `sqrt` on positive channels, `0` otherwise. -/
def linearToGamma (ops : FOps) (v : V3) : V3 :=
  ⟨if FF.blt (FF.fin 0) v.x then ops.fsqrt v.x else FF.fin 0,
   if FF.blt (FF.fin 0) v.y then ops.fsqrt v.y else FF.fin 0,
   if FF.blt (FF.fin 0) v.z then ops.fsqrt v.z else FF.fin 0⟩

/-- `impl From<Vec3f> for [u8;3]` on one channel:
`f32::floor(c * 255.0).clamp(0.0, 255.0) as u8`. -/
def u8OfFF (c : FF) : Nat :=
  match FF.ffloor (FF.mul c (FF.fin 255)) with
  | FF.nan => 0
  | FF.inf true => 255
  | FF.inf false => 0
  | FF.fin q => (max 0 (min 255 ⌊q⌋)).toNat

/-- One sample of the `render_to_image` per-pixel loop: camera basis, jittered
primary ray, one `trace`; accumulates the color and threads the RNG. -/
def pixelSample (ops : FOps) (P : RParams) (scene : Scene) (sx sy : FF)
    (acc : V3 × Nat) : V3 × Nat :=
  let forward := vnormalized ops (V3.vsub P.cameraTarget P.cameraPos)
  let right := vnormalized ops (V3.cross P.cameraUp forward)
  let up := V3.cross forward right
  let direction := vnormalized ops
    (V3.vadd (V3.vadd forward (V3.smul right sx)) (V3.smul up sy))
  let r0 := randF32 acc.2
  let r1 := randF32 r0.2
  let jdir := vnormalized ops
    ⟨FF.add direction.x
      (FF.mul (FF.sub (FF.mul r0.1 (FF.fin 2)) (FF.fin 1)) (FF.fin (5 / 10000))),
     FF.add direction.y
      (FF.mul (FF.sub (FF.mul r1.1 (FF.fin 2)) (FF.fin 1)) (FF.fin (5 / 10000))),
     direction.z⟩
  let tr := trace ops scene P.maxRayDepth P.debugMode ⟨P.cameraPos, jdir⟩ r1.2
  (V3.vadd acc.1 tr.1, tr.2)

/-- The whole per-pixel computation of `render_to_image` (`src/renderer.rs:
21-67`) for pixel index `i`: seed, sample loop (a single sample in debug
mode), division by the sample count, gamma encoding, byte conversion. -/
def pixelBytes (ops : FOps) (P : RParams) (scene : Scene) (W H : Nat)
    (i : Nat) : Nat × Nat × Nat :=
  let rng0 := seedOf i
  let x := i % W
  let y := H - i / W
  let sx := FF.mul
    (FF.sub (FF.mul (FF.div (FF.ofNat x) (FF.ofNat W)) (FF.fin 2)) (FF.fin 1))
    (FF.div (FF.ofNat W) (FF.ofNat H))
  let sy := FF.sub (FF.mul (FF.div (FF.ofNat y) (FF.ofNat H)) (FF.fin 2)) (FF.fin 1)
  let n := if P.debugMode then min 1 P.samples else P.samples
  let fc := (List.range n).foldl
    (fun acc _ => pixelSample ops P scene sx sy acc) (V3.zero, rng0)
  let fc2 := if !P.debugMode then V3.sdiv fc.1 (FF.ofNat P.samples) else fc.1
  let g := linearToGamma ops fc2
  (u8OfFF g.x, u8OfFF g.y, u8OfFF g.z)

/-- `Renderer::render_to_image`: the pixel-index range mapped through the
per-pixel computation, in index order (rayon's `by_uniform_blocks` collect
preserves index order; the flattening of the `[u8;3]` triples into a byte
vector is elided). -/
def renderBytes (ops : FOps) (P : RParams) (scene : Scene) (W H : Nat) :
    List (Nat × Nat × Nat) :=
  (List.range (W * H)).map (pixelBytes ops P scene W H)

/-! ## Auxiliary definitions for the statements -/

/-- `true` on values the `f32` model can actually represent: specials, or
finite rationals within the `f32` range.  Every value a real `f32`
computation produces satisfies this (the model's `mk` enforces it); it only
excludes out-of-range `FF.fin` terms written directly. -/
def FF.wf : FF → Bool
  | FF.fin q => decide (-f32MaxQ ≤ q) && decide (q ≤ f32MaxQ)
  | _ => true

/-- `true` exactly on finite (non-NaN, non-infinite) values. -/
def FF.isFinite : FF → Bool
  | FF.fin _ => true
  | _ => false

def V3.wf (v : V3) : Bool := v.x.wf && v.y.wf && v.z.wf

/-- The bounce count produced by the `Ray::trace` loop. -/
def traceBounces (ops : FOps) (scene : Scene) (maxBounces : Nat) (ray : RayS)
    (rng : Nat) : Nat :=
  (traceLoop ops scene maxBounces (TState.init ray rng)).bounces

/-- The accumulated `incoming_light` produced by the `Ray::trace` loop. -/
def traceIncoming (ops : FOps) (scene : Scene) (maxBounces : Nat) (ray : RayS)
    (rng : Nat) : V3 :=
  (traceLoop ops scene maxBounces (TState.init ray rng)).incoming

/-- Floor of a model float to an integer (`0` on specials); used only by the
spec-side texture lookup below. -/
def FF.floorInt : FF → Int
  | FF.fin q => ⌊q⌋
  | _ => 0

/-- Texture lookup as the spec's words describe it (refinement reference for
C8): `i = floor(u·W)`, `j = floor(v·H)`, `idx = i + j·W`, wrapped by
`idx = (idx − 1) mod (len − 1)`, returning the pixel at that index. -/
def colorAtPerSpec (tex : Texture) (uv : FF × FF) : Nat × Nat × Nat :=
  let i := FF.floorInt (FF.mul uv.1 (FF.ofNat tex.width))
  let j := FF.floorInt (FF.mul uv.2 (FF.ofNat tex.height))
  let len : Int := tex.pixelData.length
  let idx : Int := i + j * tex.width
  tex.pixelData.getD ((idx - 1) % (len - 1)).toNat (0, 0, 0)

/-- SAH cost as the spec's words describe it (refinement reference for C4):
`Nleft·SA(left) + Nright·SA(right)` with an empty side contributing zero,
and cost `≤ 0` rejected as `f32::MAX`. -/
def evaluateSahPerSpec (tris : List Tri) (nd : Node) (splitAxis : Nat)
    (splitPos : FF) : FF :=
  let slice := sliceOf tris nd.firstTriId nd.numTris
  let L := slice.filter fun t => FF.blt (t.mid.nth splitAxis) splitPos
  let R := slice.filter fun t => !FF.blt (t.mid.nth splitAxis) splitPos
  let costL := if L.length = 0 then FF.fin 0
    else FF.mul (FF.ofNat L.length) (growList Node.dflt L).surfaceArea
  let costR := if R.length = 0 then FF.fin 0
    else FF.mul (FF.ofNat R.length) (growList Node.dflt R).surfaceArea
  let cost := FF.add costL costR
  if FF.ble cost (FF.fin 0) then FF.fin f32MaxQ else cost

/-! ## Concrete instances used by counterexamples and witnesses -/

/-- Vertex literal helper. -/
def vtx (px py pz nx ny nz tu tv : ℚ) : Vertex :=
  ⟨FF.fin px, FF.fin py, FF.fin pz, FF.fin nx, FF.fin ny, FF.fin nz,
   FF.fin tu, FF.fin tv⟩

/-- Unit right triangle in the `z = 0` plane with `+z` normals. -/
def triUnit : Tri :=
  { v0 := vtx 0 0 0 0 0 1 0 0
    v1 := vtx 1 0 0 0 0 1 1 0
    v2 := vtx 0 1 0 0 0 1 0 1
    materialId := 0 }

/-- A ray with direction `(0,0,0)`: determinant exactly `0`, yet a hit. -/
def rayZeroDir : RayS := ⟨⟨FF.fin 0, FF.fin 0, FF.fin 1⟩, V3.zero⟩

/-- SAH probe node covering one triangle. -/
def nodeOneTri : Node :=
  { bmin := V3.zero, bmax := ⟨FF.fin 1, FF.fin 1, FF.fin 0⟩,
    childrenId := 0, firstTriId := 0, numTris := 1 }

/-- Transcendental primitives instantiated arbitrarily for witnesses
(no settled claim depends on `exp` / `sqrt` values). -/
def opsNan : FOps := ⟨fun _ => FF.nan, fun _ => FF.nan⟩

/-- A negative model float: `-∞` or a negative finite value. -/
def IsNeg (x : FF) : Prop := x = FF.inf false ∨ ∃ a : ℚ, a < 0 ∧ x = FF.fin a

/-- A positive model float: `+∞` or a positive finite value. -/
def IsPos (x : FF) : Prop := x = FF.inf true ∨ ∃ a : ℚ, 0 < a ∧ x = FF.fin a

/-- One axis of the slab test's `t_1` vector:
`min((m-o)/d, (M-o)/d) - 1e-4` (see `intersect_node`). -/
def slabT1 (m M o d : FF) : FF :=
  FF.sub (FF.fmin (FF.div (FF.sub m o) d) (FF.div (FF.sub M o) d))
    (FF.fin (1 / 10000))

/-- One axis of the slab test's `t_2` vector:
`max((m-o)/d, (M-o)/d) + 1e-4`. -/
def slabT2 (m M o d : FF) : FF :=
  FF.add (FF.fmax (FF.div (FF.sub m o) d) (FF.div (FF.sub M o) d))
    (FF.fin (1 / 10000))

/-- Finite and within the representable `f32` range. -/
def FF.finWf : FF → Bool
  | FF.fin q => decide (-f32MaxQ ≤ q) && decide (q ≤ f32MaxQ)
  | _ => false

/-- The point `o` lies strictly inside the node's AABB, whose bounds are
finite representable values (as any real `f32` AABB's are). -/
def insideStrict (nd : Node) (o : V3) : Bool :=
  FF.finWf nd.bmin.x && FF.finWf nd.bmax.x
    && FF.blt nd.bmin.x o.x && FF.blt o.x nd.bmax.x
    && FF.finWf nd.bmin.y && FF.finWf nd.bmax.y
    && FF.blt nd.bmin.y o.y && FF.blt o.y nd.bmax.y
    && FF.finWf nd.bmin.z && FF.finWf nd.bmax.z
    && FF.blt nd.bmin.z o.z && FF.blt o.z nd.bmax.z

/-- Unit cube AABB node. -/
def nodeUnitCube : Node :=
  { bmin := V3.zero, bmax := V3.one, childrenId := 0, firstTriId := 0,
    numTris := 1 }

/-- A ray starting at the cube's center with an axis-aligned direction. -/
def rayCenterX : RayS :=
  ⟨⟨FF.fin (1 / 2), FF.fin (1 / 2), FF.fin (1 / 2)⟩,
   ⟨FF.fin 1, FF.fin 0, FF.fin 0⟩⟩

/-- A ray starting at the cube's center whose direction is all-NaN. -/
def rayCenterNan : RayS :=
  ⟨⟨FF.fin (1 / 2), FF.fin (1 / 2), FF.fin (1 / 2)⟩,
   ⟨FF.nan, FF.nan, FF.nan⟩⟩

/-- The source's default render parameters. -/
def paramsDflt : RParams :=
  { samples := 1
    maxRayDepth := 6
    debugMode := false
    cameraPos := ⟨FF.fin 0, FF.fin 0, FF.fin 8⟩
    cameraTarget := V3.zero
    cameraUp := ⟨FF.fin 0, FF.fin 1, FF.fin 0⟩ }

/-- An empty scene value (fields all empty). -/
def sceneNil : Scene := ⟨[], [], [], []⟩

/-- A 2-pixel index space split into two one-pixel blocks. -/
def blocksTwo : List (List Nat) := [[0], [1]]

/-- 4×4 gradient texture: pixel `k` is `(k, 0, 0)`. -/
def texGrad : Texture := ⟨4, 4, (List.range 16).map fun k => (k, 0, 0)⟩

/-- A UV outside `[0,1)²` whose linear index stays in range: `u·W = 5`. -/
def uvFive : FF × FF := (FF.fin (5 / 4), FF.fin 0)

/-- A textureless dielectric with `ior = 2`. -/
def materialGlass : Material :=
  { baseColor := V3.one
    specularTint := V3.one
    emission := V3.zero
    transmission := FF.fin 0
    ior := FF.fin 2
    roughness := FF.fin 1
    metallic := FF.fin 0
    baseColorTexId := -1
    emissionTexId := -1 }

/-- Single-leaf BVH node over the unit triangle. -/
def nodeLeafUnit : Node :=
  { bmin := V3.zero, bmax := ⟨FF.fin 1, FF.fin 1, FF.fin 0⟩,
    childrenId := 0, firstTriId := 0, numTris := 1 }

/-- One-triangle glass scene for the total-internal-reflection witness. -/
def sceneTIR : Scene := ⟨[triUnit], [materialGlass], [], [nodeLeafUnit]⟩

/-- A ray hitting the unit triangle from behind (back face) obliquely enough
for total internal reflection at `ior = 2`. -/
def rayTIR : RayS :=
  ⟨⟨FF.fin (-3 / 4), FF.fin (1 / 4), FF.fin (-1 / 2)⟩,
   ⟨FF.fin 1, FF.fin 0, FF.fin (1 / 2)⟩⟩

/-- RNG state whose next draw (`≈ 0.2014`) exceeds the Fresnel term `5/36`,
forcing the refraction branch. -/
def rngTIR : Nat := 3200

/-- This node's contribution to the leaf cover of triangle index `k`:
`1` when the node is a leaf (`num_tris > 0`) whose range contains `k`. -/
def leafContrib (k : Nat) (nd : Node) : Nat :=
  if 0 < nd.numTris ∧ nd.firstTriId ≤ k ∧ k < nd.firstTriId + nd.numTris
  then 1 else 0

/-- How many leaves of the node array cover triangle index `k`.
"The leaf ranges partition `[0, N)`" is `leafCount nodes k = 1` for `k < N`
and `0` otherwise. -/
def leafCount (nodes : List Node) (k : Nat) : Nat :=
  (nodes.map (leafContrib k)).sum

def FF.notNan : FF → Bool
  | FF.nan => false
  | _ => true

/-- No vertex position coordinate of the triangle is NaN. -/
def Tri.posNotNan (t : Tri) : Bool :=
  t.v0.px.notNan && t.v0.py.notNan && t.v0.pz.notNan
    && t.v1.px.notNan && t.v1.py.notNan && t.v1.pz.notNan
    && t.v2.px.notNan && t.v2.py.notNan && t.v2.pz.notNan

def noNanTris (l : List Tri) : Bool := l.all Tri.posNotNan

def coordIn (lo hi c : FF) : Bool := FF.ble lo c && FF.ble c hi

def vertInNode (nd : Node) (v : Vertex) : Bool :=
  coordIn nd.bmin.x nd.bmax.x v.px && coordIn nd.bmin.y nd.bmax.y v.py
    && coordIn nd.bmin.z nd.bmax.z v.pz

/-- All three vertex positions are inside the node's AABB (exactly). -/
def triInNode (nd : Node) (t : Tri) : Bool :=
  vertInNode nd t.v0 && vertInNode nd t.v1 && vertInNode nd t.v2

/-- All three vertex positions are inside the node's AABB widened by the
`1e-4` tolerance of the claim. -/
def triInNodeEps (nd : Node) (t : Tri) : Bool :=
  triInNode
    { nd with
      bmin := V3.vsub nd.bmin (V3.bcast (FF.fin (1 / 10000)))
      bmax := V3.vadd nd.bmax (V3.bcast (FF.fin (1 / 10000))) } t

/-- `triUnit` translated by `+10` along x. -/
def triUnitX10 : Tri :=
  { v0 := vtx 10 0 0 0 0 1 0 0
    v1 := vtx 11 0 0 0 0 1 1 0
    v2 := vtx 10 1 0 0 0 1 0 1
    materialId := 0 }

/-- A triangle with all vertex positions NaN. -/
def triNan : Tri :=
  { v0 := ⟨FF.nan, FF.nan, FF.nan, FF.fin 0, FF.fin 0, FF.fin 1, FF.fin 0, FF.fin 0⟩
    v1 := ⟨FF.nan, FF.nan, FF.nan, FF.fin 0, FF.fin 0, FF.fin 1, FF.fin 0, FF.fin 0⟩
    v2 := ⟨FF.nan, FF.nan, FF.nan, FF.fin 0, FF.fin 0, FF.fin 1, FF.fin 0, FF.fin 0⟩
    materialId := 0 }

/-- The builder state `BVH::build` produces on the two separated unit
triangles: an interior root and two one-triangle leaves (the spec's
scenario 4). -/
def stTwoTris : BState :=
  { tris := [triUnit, triUnitX10]
    nodes :=
      [{ bmin := ⟨FF.fin 0, FF.fin 0, FF.fin 0⟩,
         bmax := ⟨FF.fin 11, FF.fin 1, FF.fin 0⟩,
         childrenId := 1, firstTriId := 0, numTris := 0 },
       { bmin := ⟨FF.fin 0, FF.fin 0, FF.fin 0⟩,
         bmax := ⟨FF.fin 1, FF.fin 1, FF.fin 0⟩,
         childrenId := 0, firstTriId := 0, numTris := 1 },
       { bmin := ⟨FF.fin 10, FF.fin 0, FF.fin 0⟩,
         bmax := ⟨FF.fin 11, FF.fin 1, FF.fin 0⟩,
         childrenId := 0, firstTriId := 1, numTris := 1 }] }

/-- The builder state `BVH::build` produces on `[triUnit, triNan]`: the NaN
centroid always compares false, every candidate split has an empty or
NaN-filled side, and the root stays a single leaf holding both triangles. -/
def stNanScene : BState :=
  { tris := [triUnit, triNan]
    nodes :=
      [{ bmin := ⟨FF.fin 0, FF.fin 0, FF.fin 0⟩,
         bmax := ⟨FF.fin 1, FF.fin 1, FF.fin 0⟩,
         childrenId := 0, firstTriId := 0, numTris := 2 }] }

/-- No AABB corner coordinate is NaN. -/
def BoundsNotNan (nd : Node) : Prop :=
  nd.bmin.x ≠ FF.nan ∧ nd.bmin.y ≠ FF.nan ∧ nd.bmin.z ≠ FF.nan
    ∧ nd.bmax.x ≠ FF.nan ∧ nd.bmax.y ≠ FF.nan ∧ nd.bmax.z ≠ FF.nan

/-- All vertex position coordinates are representable model values
(`FF.wf`); every genuine `f32` coordinate satisfies this. -/
def Tri.posWf (t : Tri) : Bool :=
  t.v0.px.wf && t.v0.py.wf && t.v0.pz.wf
    && t.v1.px.wf && t.v1.py.wf && t.v1.pz.wf
    && t.v2.px.wf && t.v2.py.wf && t.v2.pz.wf

def wfTris (l : List Tri) : Bool := l.all Tri.posWf

/-- The builder's global invariant over a state with `N` input triangles:
the triangle list keeps its length, the leaf ranges cover each index below
`N` exactly once (and nothing at or above `N`), every leaf's triangle slice
lies inside the leaf's AABB, and no triangle coordinate is NaN. -/
def GI (N : Nat) (st : BState) : Prop :=
  st.tris.length = N
    ∧ (∀ k, leafCount st.nodes k = if k < N then 1 else 0)
    ∧ (∀ i nd, st.nodes.get? i = some nd → 0 < nd.numTris →
        ∀ t ∈ sliceOf st.tris nd.firstTriId nd.numTris, triInNode nd t = true)
    ∧ (∀ t ∈ st.tris, Tri.posNotNan t = true)

/-- What one `split_node` call may change: the triangle list is permuted and
only inside the entry node's range; pre-existing nodes other than the entry
are untouched; the entry node keeps its bounds and start index. -/
def SplitFrame (idx : Nat) (st st' : BState) : Prop :=
  st'.tris.length = st.tris.length
    ∧ st'.tris.Perm st.tris
    ∧ st.nodes.length ≤ st'.nodes.length
    ∧ (∀ i, i < st.nodes.length → i ≠ idx → st'.nodes.get? i = st.nodes.get? i)
    ∧ (∀ nd0, st.nodes.get? idx = some nd0 →
        (∃ nd', st'.nodes.get? idx = some nd' ∧ nd'.bmin = nd0.bmin
          ∧ nd'.bmax = nd0.bmax ∧ nd'.firstTriId = nd0.firstTriId)
        ∧ (∀ m, m < nd0.firstTriId ∨ nd0.firstTriId + nd0.numTris ≤ m →
            st'.tris.get? m = st.tris.get? m))

/-! ## Theorems -/

theorem xor_lt_u32 {a b : Nat} (ha : a < 4294967296) (hb : b < 4294967296) :
    (a ^^^ b) < 4294967296 := by
  have h32 : (4294967296 : Nat) = 2 ^ 32 := by norm_num
  rw [h32] at ha hb ⊢
  exact Nat.bitwise_lt ha hb

theorem shiftRight_le_self (a k : Nat) : a >>> k ≤ a := by
  rw [Nat.shiftRight_eq_div_pow]
  exact Nat.div_le_self _ _

theorem xorShift_lt (s : Nat) : xorShift s < 4294967296 := by
  have hpos : 0 < 4294967296 := by norm_num
  have h1 : s % 4294967296 < 4294967296 := Nat.mod_lt _ hpos
  have h3 := xor_lt_u32 h1 (Nat.mod_lt ((s % 4294967296) <<< 13) hpos)
  have h5 := xor_lt_u32 h3 (lt_of_le_of_lt (shiftRight_le_self _ 17) h3)
  exact xor_lt_u32 h5 (Nat.mod_lt _ hpos)

/-- **C9** (amended).  Every value produced by `rand_f32` is a finite number
in the closed interval `[0, 1]` — closed, not half-open: the upper endpoint
`1.0` is attained (see the counterexample below), so the claimed `[0, 1)` is
too strong. -/
theorem rand_f32_mem_unit_closed (s : Nat) :
    ∃ q : ℚ, (randF32 s).1 = FF.fin q ∧ 0 ≤ q ∧ q ≤ 1 := by
  have hlt := xorShift_lt s
  refine ⟨(xorShift s : ℚ) / 4294967295, ?_, ?_, ?_⟩
  · show FF.div (FF.fin (xorShift s : ℚ)) (FF.fin 4294967295) = _
    rw [FF.div]
    have hne : (4294967295 : ℚ) ≠ 0 := by norm_num
    simp only [hne, if_false]
    rw [FF.mk]
    have hq0 : (0 : ℚ) ≤ (xorShift s : ℚ) / 4294967295 :=
      div_nonneg (by positivity) (by norm_num)
    have hq1 : (xorShift s : ℚ) / 4294967295 ≤ 1 := by
      rw [div_le_one (by norm_num)]
      exact_mod_cast Nat.le_of_lt_succ hlt
    have hmax : (1 : ℚ) ≤ f32MaxQ := by norm_num [f32MaxQ]
    rw [if_neg (by linarith), if_neg (by linarith)]
  · positivity
  · rw [div_le_one (by norm_num)]
    exact_mod_cast Nat.le_of_lt_succ hlt

/-- **C9** (counterexample to the original claim).  At the concrete RNG state
`1584200935` the xorshift output is `u32::MAX = 4294967295`, so `rand_f32`
returns exactly `1.0`, which is not in the half-open interval `[0, 1)`.
(In genuine `f32` arithmetic the result is exactly `1.0` as well: numerator
and denominator are both cast to `4294967296.0`.) -/
theorem rand_f32_attains_one :
    randF32 1584200935 = (FF.fin 1, 4294967295) := by
  with_unfolding_all decide

/-- **C3** (the code bug, evaluated).  `BVH::build` on the empty scene
panics instead of completing: the empty root has surface area `+∞` (the
default node's extent overflows), so `parent_cost = 0 * ∞ = NaN`, the leaf
test `best_split_cost >= parent_cost` is false against NaN, and the partition
loop underflows `j = 0 + 0 - 1` / indexes `tris[0]` out of bounds.  The
claimed white-image render of an empty scene is therefore unreachable. -/
theorem build_empty_scene_panics : buildE ([] : List Tri) = .error () := by
  with_unfolding_all rfl

theorem blt_neg_and_pos (a : FF) :
    (FF.blt a (FF.fin 0) && FF.blt (FF.fin 0) a) = false := by
  rcases a with _ | s | q
  · rfl
  · cases s <;> rfl
  · show (decide (q < 0) && decide ((0 : ℚ) < q)) = false
    by_cases h : q < 0
    · have h' : ¬(0 : ℚ) < q := by linarith
      simp [h, h']
    · simp [h]

/-- **C2** (amended).  `intersect_tri` reports a hit iff `t > 1e-4`,
`¬(u < 0 ∨ u > 1)` and `¬(v < 0 ∨ u + v > 1)`, where `t`, `u`, `v` are the
values the code computes through `inv_det = 1/det` in IEEE arithmetic (they
may be NaN or infinite when `det = 0`).  The source's determinant test
`!(det < 0.0 && det > -0.0)` is identically true — `-0.0` compares equal to
`0.0` — so no determinant, not even an exact zero, is rejected by it; the
claimed "zero determinant yields no hit" is refuted by the counterexample
below. -/
theorem intersect_tri_hasHit_iff (ray : RayS) (tri : Tri) :
    (intersectTri ray tri).hasHit =
      (FF.blt (FF.fin (1 / 10000)) (triT ray tri)
        && !(FF.blt (triU ray tri) (FF.fin 0) || FF.blt (FF.fin 1) (triU ray tri))
        && !(FF.blt (triV ray tri) (FF.fin 0)
          || FF.blt (FF.fin 1) (FF.add (triU ray tri) (triV ray tri)))) := by
  simp only [intersectTri, blt_neg_and_pos, Bool.not_false, Bool.and_true]

/-- **C2** (counterexample to the original claim).  For the ray with origin
`(0,0,1)` and direction `(0,0,0)` against the unit triangle, the determinant
is exactly `0` (so "the Möller-Trumbore solution" does not exist, `u` and `v`
evaluate to NaN and `t` to `+∞`), and yet `intersect_tri` reports a hit —
contradicting both the claimed iff (whose right side requires `|det| > 0`)
and "a zero determinant yields no hit". -/
theorem intersect_tri_zero_det_hit :
    triDet rayZeroDir triUnit = FF.fin 0
      ∧ (intersectTri rayZeroDir triUnit).hasHit = true := by
  constructor
  · with_unfolding_all rfl
  · with_unfolding_all rfl

/-- **C5** (confirmed).  In non-debug mode `Ray::trace` returns the
accumulated `incoming_light` unchanged when the bounce loop took zero
bounces, and `incoming_light / curr_bounces` when at least one bounce was
taken. -/
theorem trace_divides_by_bounce_count (ops : FOps) (scene : Scene)
    (maxBounces : Nat) (ray : RayS) (rng : Nat) :
    (trace ops scene maxBounces false ray rng).1 =
      if traceBounces ops scene maxBounces ray rng = 0 then
        traceIncoming ops scene maxBounces ray rng
      else
        V3.sdiv (traceIncoming ops scene maxBounces ray rng)
          (FF.ofNat (traceBounces ops scene maxBounces ray rng)) := by
  simp only [trace, traceBounces, traceIncoming, Bool.false_and]
  rfl

theorem growList_set_num (nd : Node) (k : Nat) (l : List Tri) :
    growList { nd with numTris := k } l = { growList nd l with numTris := k } := by
  induction l generalizing nd with
  | nil => rfl
  | cons t l ih =>
    show growList (Node.growByTri { nd with numTris := k } t) l = _
    have h : Node.growByTri { nd with numTris := k } t =
        { Node.growByTri nd t with numTris := k } := rfl
    rw [h, ih]
    rfl

theorem growList_cons (nd : Node) (t : Tri) (l : List Tri) :
    growList nd (t :: l) = growList (Node.growByTri nd t) l := rfl

theorem sahFold_eq (splitAxis : Nat) (splitPos : FF) (l : List Tri)
    (nl nr : Node) :
    l.foldl (sahStep splitAxis splitPos) (nl, nr) =
      ({ growList nl (l.filter fun t => FF.blt (t.mid.nth splitAxis) splitPos) with
          numTris := nl.numTris +
            (l.filter fun t => FF.blt (t.mid.nth splitAxis) splitPos).length },
       { growList nr (l.filter fun t => !FF.blt (t.mid.nth splitAxis) splitPos) with
          numTris := nr.numTris +
            (l.filter fun t => !FF.blt (t.mid.nth splitAxis) splitPos).length }) := by
  induction l generalizing nl nr with
  | nil => simp [growList]
  | cons t l ih =>
    cases hb : FF.blt (t.mid.nth splitAxis) splitPos with
    | true =>
      have hstep : sahStep splitAxis splitPos (nl, nr) t =
          ({ nl.growByTri t with numTris := nl.numTris + 1 }, nr) := by
        simp [sahStep, hb]
      rw [List.foldl_cons, hstep, ih]
      simp only [growList_set_num, List.filter_cons, hb, Bool.not_true,
        Bool.false_eq_true, if_false, if_true, List.length_cons, growList_cons]
      refine Prod.ext ?_ ?_ <;> (simp; try omega)
    | false =>
      have hstep : sahStep splitAxis splitPos (nl, nr) t =
          (nl, { nr.growByTri t with numTris := nr.numTris + 1 }) := by
        simp [sahStep, hb]
      rw [List.foldl_cons, hstep, ih]
      simp only [growList_set_num, List.filter_cons, hb, Bool.not_false,
        Bool.false_eq_true, if_false, if_true, List.length_cons, growList_cons]
      refine Prod.ext ?_ ?_ <;> (simp; try omega)

/-- **C4** (amended).  `evaluate_sah` equals: partition the node's slice by
centroid, and return `Nleft·SA(boxLeft) + Nright·SA(boxRight)` if that IEEE
sum is `> 0`, and `f32::MAX` otherwise.  Contrary to the claim, a side with
zero triangles does *not* contribute `0`: its box is the untouched default
whose extent `(-f32::MAX) - f32::MAX` overflows to `-∞`, so its surface area
is `+∞` and `0 * ∞ = NaN` poisons the whole sum; the `cost > 0` test then
fails and the candidate is rejected with `f32::MAX` (see the counterexample
below). -/
theorem evaluate_sah_eq (tris : List Tri) (nd : Node) (ax : Nat) (pos : FF) :
    evaluateSah tris nd ax pos =
      (let slice := sliceOf tris nd.firstTriId nd.numTris
       let L := slice.filter fun t => FF.blt (t.mid.nth ax) pos
       let R := slice.filter fun t => !FF.blt (t.mid.nth ax) pos
       let cost := FF.add
         (FF.mul (FF.ofNat L.length) (growList Node.dflt L).surfaceArea)
         (FF.mul (FF.ofNat R.length) (growList Node.dflt R).surfaceArea)
       if FF.blt (FF.fin 0) cost then cost else FF.fin f32MaxQ) := by
  have hsa : ∀ (nd : Node) (k : Nat),
      Node.surfaceArea { nd with numTris := k } = nd.surfaceArea := fun _ _ => rfl
  simp only [evaluateSah, sahFold_eq, hsa]
  have hdn : Node.dflt.numTris = 0 := rfl
  simp [hdn]

/-- **C4** (counterexample to the original claim).  With a single triangle
falling left of the candidate, the claim's formula `1·SA(left) + 0·SA(right)
= SA(left) = 1` would be returned (it is positive), but the code returns
`f32::MAX` because the empty right side contributes NaN, not zero. -/
theorem evaluate_sah_empty_side_rejects :
    evaluateSah [triUnit] nodeOneTri 0 (FF.fin 1) = FF.fin f32MaxQ
      ∧ evaluateSahPerSpec [triUnit] nodeOneTri 0 (FF.fin 1) = FF.fin 1 := by
  constructor
  · with_unfolding_all rfl
  · with_unfolding_all rfl

/-! ### Sign-classification kit for the slab test -/

theorem IsNeg.blt_zero {x : FF} (h : IsNeg x) : FF.blt x (FF.fin 0) = true := by
  rcases h with h | ⟨a, ha, h⟩ <;> subst h
  · rfl
  · simpa [FF.blt] using ha

theorem IsPos.zero_blt {x : FF} (h : IsPos x) : FF.blt (FF.fin 0) x = true := by
  rcases h with h | ⟨a, ha, h⟩ <;> subst h
  · rfl
  · simpa [FF.blt] using ha

theorem isNeg_ne_nan {x : FF} (h : IsNeg x) : x ≠ FF.nan := by
  rcases h with h | ⟨a, _, h⟩ <;> subst h <;> simp

theorem isPos_ne_nan {x : FF} (h : IsPos x) : x ≠ FF.nan := by
  rcases h with h | ⟨a, _, h⟩ <;> subst h <;> simp

theorem isNeg_mk {q : ℚ} (h : q < 0) : IsNeg (FF.mk q) := by
  unfold FF.mk
  have hq : ¬f32MaxQ < q := by
    have : (0 : ℚ) < f32MaxQ := by norm_num [f32MaxQ]
    linarith
  rw [if_neg hq]
  by_cases h2 : q < -f32MaxQ
  · rw [if_pos h2]; exact Or.inl rfl
  · rw [if_neg h2]; exact Or.inr ⟨q, h, rfl⟩

theorem isPos_mk {q : ℚ} (h : 0 < q) : IsPos (FF.mk q) := by
  unfold FF.mk
  by_cases h1 : f32MaxQ < q
  · rw [if_pos h1]; exact Or.inl rfl
  · have hq : ¬q < -f32MaxQ := by
      have : (0 : ℚ) < f32MaxQ := by norm_num [f32MaxQ]
      linarith
    rw [if_neg h1, if_neg hq]
    exact Or.inr ⟨q, h, rfl⟩

theorem IsNeg.sub_eps {x : FF} (h : IsNeg x) :
    IsNeg (FF.sub x (FF.fin (1 / 10000))) := by
  rcases h with h | ⟨a, ha, h⟩ <;> subst h
  · exact Or.inl rfl
  · exact isNeg_mk (by linarith)

theorem IsPos.add_eps {x : FF} (h : IsPos x) :
    IsPos (FF.add x (FF.fin (1 / 10000))) := by
  rcases h with h | ⟨a, ha, h⟩ <;> subst h
  · exact Or.inl rfl
  · exact isPos_mk (by linarith)

theorem blt_of_isNeg_isPos {x y : FF} (hx : IsNeg x) (hy : IsPos y) :
    FF.blt x y = true := by
  rcases hx with hx | ⟨a, ha, hx⟩ <;> rcases hy with hy | ⟨b, hb, hy⟩ <;>
    subst hx <;> subst hy
  · rfl
  · rfl
  · rfl
  · simp [FF.blt]; linarith


theorem div_isNeg_posd {x : FF} (hx : IsNeg x) {q : ℚ} (hq : 0 < q) :
    IsNeg (FF.div x (FF.fin q)) := by
  rcases hx with hx | ⟨a, ha, hx⟩ <;> subst hx
  · show IsNeg (FF.inf (false = decide (0 ≤ q)))
    rw [decide_eq_true (le_of_lt hq)]
    exact Or.inl (by simp)
  · show IsNeg (if q = 0 then (if a = 0 then FF.nan else FF.inf (decide (0 < a)))
      else FF.mk (a / q))
    rw [if_neg (ne_of_gt hq)]
    exact isNeg_mk (div_neg_of_neg_of_pos ha hq)

theorem div_isNeg_negd {x : FF} (hx : IsNeg x) {q : ℚ} (hq : q < 0) :
    IsPos (FF.div x (FF.fin q)) := by
  rcases hx with hx | ⟨a, ha, hx⟩ <;> subst hx
  · show IsPos (FF.inf (false = decide (0 ≤ q)))
    rw [decide_eq_false (not_le.mpr hq)]
    exact Or.inl (by simp)
  · show IsPos (if q = 0 then (if a = 0 then FF.nan else FF.inf (decide (0 < a)))
      else FF.mk (a / q))
    rw [if_neg (ne_of_lt hq)]
    exact isPos_mk (div_pos_of_neg_of_neg ha hq)

theorem div_isNeg_zerod {x : FF} (hx : IsNeg x) :
    IsNeg (FF.div x (FF.fin 0)) := by
  rcases hx with hx | ⟨a, ha, hx⟩ <;> subst hx
  · show IsNeg (FF.inf (false = decide ((0 : ℚ) ≤ 0)))
    rw [decide_eq_true (le_refl (0 : ℚ))]
    exact Or.inl (by simp)
  · show IsNeg (if (0 : ℚ) = 0 then (if a = 0 then FF.nan else FF.inf (decide (0 < a)))
      else FF.mk (a / 0))
    rw [if_pos rfl, if_neg (ne_of_lt ha)]
    rw [decide_eq_false (not_lt.mpr (le_of_lt ha))]
    exact Or.inl rfl

theorem div_isPos_posd {x : FF} (hx : IsPos x) {q : ℚ} (hq : 0 < q) :
    IsPos (FF.div x (FF.fin q)) := by
  rcases hx with hx | ⟨a, ha, hx⟩ <;> subst hx
  · show IsPos (FF.inf (true = decide (0 ≤ q)))
    rw [decide_eq_true (le_of_lt hq)]
    exact Or.inl rfl
  · show IsPos (if q = 0 then (if a = 0 then FF.nan else FF.inf (decide (0 < a)))
      else FF.mk (a / q))
    rw [if_neg (ne_of_gt hq)]
    exact isPos_mk (div_pos ha hq)

theorem div_isPos_negd {x : FF} (hx : IsPos x) {q : ℚ} (hq : q < 0) :
    IsNeg (FF.div x (FF.fin q)) := by
  rcases hx with hx | ⟨a, ha, hx⟩ <;> subst hx
  · show IsNeg (FF.inf (true = decide (0 ≤ q)))
    rw [decide_eq_false (not_le.mpr hq)]
    exact Or.inl rfl
  · show IsNeg (if q = 0 then (if a = 0 then FF.nan else FF.inf (decide (0 < a)))
      else FF.mk (a / q))
    rw [if_neg (ne_of_lt hq)]
    exact isNeg_mk (div_neg_of_pos_of_neg ha hq)

theorem div_isPos_zerod {x : FF} (hx : IsPos x) :
    IsPos (FF.div x (FF.fin 0)) := by
  rcases hx with hx | ⟨a, ha, hx⟩ <;> subst hx
  · show IsPos (FF.inf (true = decide ((0 : ℚ) ≤ 0)))
    rw [decide_eq_true (le_refl (0 : ℚ))]
    exact Or.inl rfl
  · show IsPos (if (0 : ℚ) = 0 then (if a = 0 then FF.nan else FF.inf (decide (0 < a)))
      else FF.mk (a / 0))
    rw [if_pos rfl, if_neg (ne_of_gt ha)]
    rw [decide_eq_true ha]
    exact Or.inl rfl

theorem fmin_of_nonnan {x y : FF} (hx : x ≠ FF.nan) (hy : y ≠ FF.nan) :
    FF.fmin x y = (if FF.ble x y then x else y)
      ∧ FF.fmax x y = (if FF.ble x y then y else x) := by
  rcases x with _ | s | a <;> rcases y with _ | t | b <;> simp_all [FF.fmin, FF.fmax]

theorem ble_of_neg_pos {x y : FF} (hx : IsNeg x) (hy : IsPos y) :
    FF.ble x y = true := by
  unfold FF.ble
  rw [blt_of_isNeg_isPos hx hy]
  rfl

theorem ble_of_pos_neg {x y : FF} (hx : IsPos x) (hy : IsNeg y) :
    FF.ble x y = false := by
  unfold FF.ble
  rcases hx with hx | ⟨a, ha, hx⟩ <;> rcases hy with hy | ⟨b, hb, hy⟩ <;>
    subst hx <;> subst hy
  · rfl
  · rfl
  · rfl
  · have h1 : ¬a < b := by linarith
    have h2 : a ≠ b := ne_of_gt (lt_trans hb ha)
    simp [FF.blt, FF.beq, h1, h2]

theorem fmin_fmax_of_neg_pos {x y : FF} (hx : IsNeg x) (hy : IsPos y) :
    FF.fmin x y = x ∧ FF.fmax x y = y := by
  obtain ⟨e1, e2⟩ := fmin_of_nonnan (isNeg_ne_nan hx) (isPos_ne_nan hy)
  rw [e1, e2, ble_of_neg_pos hx hy]
  exact ⟨rfl, rfl⟩

theorem fmin_fmax_of_pos_neg {x y : FF} (hx : IsPos x) (hy : IsNeg y) :
    FF.fmin x y = y ∧ FF.fmax x y = x := by
  obtain ⟨e1, e2⟩ := fmin_of_nonnan (isPos_ne_nan hx) (isNeg_ne_nan hy)
  rw [e1, e2, ble_of_pos_neg hx hy]
  exact ⟨rfl, rfl⟩

theorem sub_fin_eq_mk (a b : ℚ) :
    FF.sub (FF.fin a) (FF.fin b) = FF.mk (a - b) := by
  show FF.mk (a + -b) = FF.mk (a - b)
  rw [← sub_eq_add_neg]

theorem mk_cases_neg {q : ℚ} (h : q < 0) :
    FF.mk q = FF.inf false ∨ FF.mk q = FF.fin q := by
  unfold FF.mk
  rw [if_neg (by
    have : (0 : ℚ) < f32MaxQ := by norm_num [f32MaxQ]
    linarith)]
  by_cases h2 : q < -f32MaxQ
  · rw [if_pos h2]; exact Or.inl rfl
  · rw [if_neg h2]; exact Or.inr rfl

theorem mk_cases_pos {q : ℚ} (h : 0 < q) :
    FF.mk q = FF.inf true ∨ FF.mk q = FF.fin q := by
  unfold FF.mk
  by_cases h1 : f32MaxQ < q
  · rw [if_pos h1]; exact Or.inl rfl
  · rw [if_neg h1, if_neg (by
      have : (0 : ℚ) < f32MaxQ := by norm_num [f32MaxQ]
      linarith)]
    exact Or.inr rfl

/-- Single-axis slab lemma: with finite representable bounds strictly
enclosing the origin component, the slab interval of the axis has `t1 < 0`
and `t2 > 0` for every direction component except NaN, which makes both
NaN (the NaN axis is then ignored by Rust's `f32::min`/`f32::max`). -/
theorem slab_axis {qm qM qo : ℚ} (d : FF)
    (hm1 : -f32MaxQ ≤ qm) (hM2 : qM ≤ f32MaxQ)
    (h1 : qm < qo) (h2 : qo < qM) :
    (d = FF.nan ∧ slabT1 (FF.fin qm) (FF.fin qM) (FF.fin qo) d = FF.nan
      ∧ slabT2 (FF.fin qm) (FF.fin qM) (FF.fin qo) d = FF.nan)
    ∨ (IsNeg (slabT1 (FF.fin qm) (FF.fin qM) (FF.fin qo) d)
        ∧ IsPos (slabT2 (FF.fin qm) (FF.fin qM) (FF.fin qo) d)) := by
  have hnegm : IsNeg (FF.mk (qm - qo)) := isNeg_mk (by linarith)
  have hposM : IsPos (FF.mk (qM - qo)) := isPos_mk (by linarith)
  unfold slabT1 slabT2
  rw [sub_fin_eq_mk, sub_fin_eq_mk]
  rcases d with _ | s | q
  · -- NaN direction component: the whole axis is NaN
    left
    refine ⟨rfl, ?_, ?_⟩ <;>
      rcases hnegm with hx | ⟨a, _, hx⟩ <;> rcases hposM with hy | ⟨b, _, hy⟩ <;>
        rw [hx, hy] <;> rfl
  · -- infinite direction: each quotient is 0 or NaN, never both NaN
    right
    by_cases hom : qm - qo < -f32MaxQ
    · have hqm : FF.mk (qm - qo) = FF.inf false := by
        unfold FF.mk
        rw [if_neg (by
          have : (0 : ℚ) < f32MaxQ := by norm_num [f32MaxQ]
          linarith), if_pos hom]
      have hoM : ¬f32MaxQ < qM - qo := by linarith
      have hqM : FF.mk (qM - qo) = FF.fin (qM - qo) := by
        unfold FF.mk
        rw [if_neg hoM, if_neg (by linarith)]
      rw [hqm, hqM]
      constructor
      · exact isNeg_mk (by norm_num)
      · exact isPos_mk (by norm_num)
    · have hqm : FF.mk (qm - qo) = FF.fin (qm - qo) := by
        unfold FF.mk
        rw [if_neg (by
          have : (0 : ℚ) < f32MaxQ := by norm_num [f32MaxQ]
          linarith), if_neg hom]
      by_cases hoM : f32MaxQ < qM - qo
      · have hqM : FF.mk (qM - qo) = FF.inf true := by
          unfold FF.mk
          rw [if_pos hoM]
        rw [hqm, hqM]
        constructor
        · exact isNeg_mk (by norm_num)
        · exact isPos_mk (by norm_num)
      · have hqM : FF.mk (qM - qo) = FF.fin (qM - qo) := by
          unfold FF.mk
          rw [if_neg hoM, if_neg (by linarith)]
        rw [hqm, hqM]
        constructor
        · exact isNeg_mk (by norm_num)
        · exact isPos_mk (by norm_num)
  · -- finite direction component
    right
    rcases lt_trichotomy q 0 with hq | hq | hq
    · have ha := div_isNeg_negd hnegm hq
      have hb := div_isPos_negd hposM hq
      obtain ⟨e1, e2⟩ := fmin_fmax_of_pos_neg ha hb
      rw [e1, e2]
      exact ⟨hb.sub_eps, ha.add_eps⟩
    · subst hq
      have ha := div_isNeg_zerod hnegm
      have hb := div_isPos_zerod hposM
      obtain ⟨e1, e2⟩ := fmin_fmax_of_neg_pos ha hb
      rw [e1, e2]
      exact ⟨ha.sub_eps, hb.add_eps⟩
    · have ha := div_isNeg_posd hnegm hq
      have hb := div_isPos_posd hposM hq
      obtain ⟨e1, e2⟩ := fmin_fmax_of_neg_pos ha hb
      rw [e1, e2]
      exact ⟨ha.sub_eps, hb.add_eps⟩

theorem finWf_spec {x : FF} (h : FF.finWf x = true) :
    ∃ q, x = FF.fin q ∧ -f32MaxQ ≤ q ∧ q ≤ f32MaxQ := by
  rcases x with _ | s | q
  · exact absurd h (by simp [FF.finWf])
  · exact absurd h (by simp [FF.finWf])
  · simp only [FF.finWf, Bool.and_eq_true, decide_eq_true_eq] at h
    exact ⟨q, rfl, h.1, h.2⟩

theorem blt_between {qm qM : ℚ} {o : FF} (h1 : FF.blt (FF.fin qm) o = true)
    (h2 : FF.blt o (FF.fin qM) = true) :
    ∃ qo, o = FF.fin qo ∧ qm < qo ∧ qo < qM := by
  rcases o with _ | s | q
  · exact absurd h1 (by simp [FF.blt])
  · cases s
    · exact absurd h1 (by simp [FF.blt])
    · exact absurd h2 (by simp [FF.blt])
  · exact ⟨q, rfl, by simpa [FF.blt] using h1, by simpa [FF.blt] using h2⟩

theorem fmax_nan_right (x : FF) : FF.fmax x FF.nan = x := by
  rcases x with _ | s | q <;> rfl

theorem fmin_nan_right (x : FF) : FF.fmin x FF.nan = x := by
  rcases x with _ | s | q <;> rfl

theorem fmax_opt {x y : FF} (hx : IsNeg x ∨ x = FF.nan)
    (hy : IsNeg y ∨ y = FF.nan) :
    (IsNeg (FF.fmax x y) ∨ FF.fmax x y = FF.nan)
      ∧ ((IsNeg x ∨ IsNeg y) → IsNeg (FF.fmax x y)) := by
  rcases hx with hx | hx
  · rcases hy with hy | hy
    · have hmem : FF.fmax x y = x ∨ FF.fmax x y = y := by
        obtain ⟨_, e2⟩ := fmin_of_nonnan (isNeg_ne_nan hx) (isNeg_ne_nan hy)
        rw [e2]
        by_cases hb : FF.ble x y = true
        · rw [if_pos hb]; exact Or.inr rfl
        · rw [if_neg hb]; exact Or.inl rfl
      rcases hmem with e | e <;> rw [e]
      · exact ⟨Or.inl hx, fun _ => hx⟩
      · exact ⟨Or.inl hy, fun _ => hy⟩
    · subst hy
      rw [fmax_nan_right]
      exact ⟨Or.inl hx, fun _ => hx⟩
  · subst hx
    show _ ∧ _
    have e : FF.fmax FF.nan y = y := by rcases y with _ | s | q <;> rfl
    rw [e]
    rcases hy with hy | hy
    · exact ⟨Or.inl hy, fun _ => hy⟩
    · subst hy
      refine ⟨Or.inr rfl, fun hc => ?_⟩
      rcases hc with hc | hc <;> exact absurd rfl (isNeg_ne_nan hc)

theorem fmin_opt {x y : FF} (hx : IsPos x ∨ x = FF.nan)
    (hy : IsPos y ∨ y = FF.nan) :
    (IsPos (FF.fmin x y) ∨ FF.fmin x y = FF.nan)
      ∧ ((IsPos x ∨ IsPos y) → IsPos (FF.fmin x y)) := by
  rcases hx with hx | hx
  · rcases hy with hy | hy
    · have hmem : FF.fmin x y = x ∨ FF.fmin x y = y := by
        obtain ⟨e1, _⟩ := fmin_of_nonnan (isPos_ne_nan hx) (isPos_ne_nan hy)
        rw [e1]
        by_cases hb : FF.ble x y = true
        · rw [if_pos hb]; exact Or.inl rfl
        · rw [if_neg hb]; exact Or.inr rfl
      rcases hmem with e | e <;> rw [e]
      · exact ⟨Or.inl hx, fun _ => hx⟩
      · exact ⟨Or.inl hy, fun _ => hy⟩
    · subst hy
      rw [fmin_nan_right]
      exact ⟨Or.inl hx, fun _ => hx⟩
  · subst hx
    have e : FF.fmin FF.nan y = y := by rcases y with _ | s | q <;> rfl
    rw [e]
    rcases hy with hy | hy
    · exact ⟨Or.inl hy, fun _ => hy⟩
    · subst hy
      refine ⟨Or.inr rfl, fun hc => ?_⟩
      rcases hc with hc | hc <;> exact absurd rfl (isPos_ne_nan hc)

/-- **C6** (amended).  For every BVH node with finite (representable) bounds
and every ray whose origin lies strictly inside the node's AABB,
`intersect_node` returns `true` for every direction whose components are not
all NaN — including axis-aligned directions, where the division by a zero
component produces infinities that the `min`/`max` rules handle.  (An all-NaN
direction makes every slab interval NaN and the test returns `false`; see the
counterexample below, which is why the claim's "arbitrary direction" needed
amending.) -/
theorem intersect_node_origin_inside (ray : RayS) (nd : Node)
    (hin : insideStrict nd ray.origin = true)
    (hd : ray.direction.x ≠ FF.nan ∨ ray.direction.y ≠ FF.nan
      ∨ ray.direction.z ≠ FF.nan) :
    intersectNode ray nd = true := by
  simp only [insideStrict, Bool.and_eq_true] at hin
  obtain ⟨⟨⟨⟨⟨⟨⟨⟨⟨⟨⟨hwmx, hwMx⟩, h1x⟩, h2x⟩, hwmy⟩, hwMy⟩, h1y⟩, h2y⟩,
    hwmz⟩, hwMz⟩, h1z⟩, h2z⟩ := hin
  obtain ⟨qmx, emx, hmx1, _⟩ := finWf_spec hwmx
  obtain ⟨qMx, eMx, _, hMx2⟩ := finWf_spec hwMx
  obtain ⟨qmy, emy, hmy1, _⟩ := finWf_spec hwmy
  obtain ⟨qMy, eMy, _, hMy2⟩ := finWf_spec hwMy
  obtain ⟨qmz, emz, hmz1, _⟩ := finWf_spec hwmz
  obtain ⟨qMz, eMz, _, hMz2⟩ := finWf_spec hwMz
  rw [emx] at h1x; rw [eMx] at h2x
  rw [emy] at h1y; rw [eMy] at h2y
  rw [emz] at h1z; rw [eMz] at h2z
  obtain ⟨qox, eox, ho1x, ho2x⟩ := blt_between h1x h2x
  obtain ⟨qoy, eoy, ho1y, ho2y⟩ := blt_between h1y h2y
  obtain ⟨qoz, eoz, ho1z, ho2z⟩ := blt_between h1z h2z
  have hgoal : intersectNode ray nd =
      (FF.blt
        (FF.fmax
          (FF.fmax (slabT1 nd.bmin.x nd.bmax.x ray.origin.x ray.direction.x)
            (slabT1 nd.bmin.y nd.bmax.y ray.origin.y ray.direction.y))
          (slabT1 nd.bmin.z nd.bmax.z ray.origin.z ray.direction.z))
        (FF.fmin
          (FF.fmin (slabT2 nd.bmin.x nd.bmax.x ray.origin.x ray.direction.x)
            (slabT2 nd.bmin.y nd.bmax.y ray.origin.y ray.direction.y))
          (slabT2 nd.bmin.z nd.bmax.z ray.origin.z ray.direction.z))
      && FF.blt (FF.fin 0)
        (FF.fmin
          (FF.fmin (slabT2 nd.bmin.x nd.bmax.x ray.origin.x ray.direction.x)
            (slabT2 nd.bmin.y nd.bmax.y ray.origin.y ray.direction.y))
          (slabT2 nd.bmin.z nd.bmax.z ray.origin.z ray.direction.z))) := rfl
  rw [hgoal, emx, eMx, emy, eMy, emz, eMz, eox, eoy, eoz]
  have hax := slab_axis
    ray.direction.x hmx1 hMx2 ho1x ho2x
  have hay := slab_axis
    ray.direction.y hmy1 hMy2 ho1y ho2y
  have haz := slab_axis
    ray.direction.z hmz1 hMz2 ho1z ho2z
  have hn1x : IsNeg (slabT1 (FF.fin qmx) (FF.fin qMx) (FF.fin qox) ray.direction.x)
      ∨ slabT1 (FF.fin qmx) (FF.fin qMx) (FF.fin qox) ray.direction.x = FF.nan := by
    rcases hax with ⟨_, h, _⟩ | ⟨h, _⟩
    exacts [Or.inr h, Or.inl h]
  have hn1y : IsNeg (slabT1 (FF.fin qmy) (FF.fin qMy) (FF.fin qoy) ray.direction.y)
      ∨ slabT1 (FF.fin qmy) (FF.fin qMy) (FF.fin qoy) ray.direction.y = FF.nan := by
    rcases hay with ⟨_, h, _⟩ | ⟨h, _⟩
    exacts [Or.inr h, Or.inl h]
  have hn1z : IsNeg (slabT1 (FF.fin qmz) (FF.fin qMz) (FF.fin qoz) ray.direction.z)
      ∨ slabT1 (FF.fin qmz) (FF.fin qMz) (FF.fin qoz) ray.direction.z = FF.nan := by
    rcases haz with ⟨_, h, _⟩ | ⟨h, _⟩
    exacts [Or.inr h, Or.inl h]
  have hp2x : IsPos (slabT2 (FF.fin qmx) (FF.fin qMx) (FF.fin qox) ray.direction.x)
      ∨ slabT2 (FF.fin qmx) (FF.fin qMx) (FF.fin qox) ray.direction.x = FF.nan := by
    rcases hax with ⟨_, _, h⟩ | ⟨_, h⟩
    exacts [Or.inr h, Or.inl h]
  have hp2y : IsPos (slabT2 (FF.fin qmy) (FF.fin qMy) (FF.fin qoy) ray.direction.y)
      ∨ slabT2 (FF.fin qmy) (FF.fin qMy) (FF.fin qoy) ray.direction.y = FF.nan := by
    rcases hay with ⟨_, _, h⟩ | ⟨_, h⟩
    exacts [Or.inr h, Or.inl h]
  have hp2z : IsPos (slabT2 (FF.fin qmz) (FF.fin qMz) (FF.fin qoz) ray.direction.z)
      ∨ slabT2 (FF.fin qmz) (FF.fin qMz) (FF.fin qoz) ray.direction.z = FF.nan := by
    rcases haz with ⟨_, _, h⟩ | ⟨_, h⟩
    exacts [Or.inr h, Or.inl h]
  have hsome :
      (IsNeg (slabT1 (FF.fin qmx) (FF.fin qMx) (FF.fin qox) ray.direction.x)
        ∧ IsPos (slabT2 (FF.fin qmx) (FF.fin qMx) (FF.fin qox) ray.direction.x))
      ∨ (IsNeg (slabT1 (FF.fin qmy) (FF.fin qMy) (FF.fin qoy) ray.direction.y)
        ∧ IsPos (slabT2 (FF.fin qmy) (FF.fin qMy) (FF.fin qoy) ray.direction.y))
      ∨ (IsNeg (slabT1 (FF.fin qmz) (FF.fin qMz) (FF.fin qoz) ray.direction.z)
        ∧ IsPos (slabT2 (FF.fin qmz) (FF.fin qMz) (FF.fin qoz) ray.direction.z)) := by
    rcases hd with hdx | hdy | hdz
    · rcases hax with ⟨h, _, _⟩ | h
      exacts [absurd h hdx, Or.inl h]
    · rcases hay with ⟨h, _, _⟩ | h
      exacts [absurd h hdy, Or.inr (Or.inl h)]
    · rcases haz with ⟨h, _, _⟩ | h
      exacts [absurd h hdz, Or.inr (Or.inr h)]
  have hinner1 := fmax_opt hn1x hn1y
  have houter1 := fmax_opt hinner1.1 hn1z
  have hnear : IsNeg (FF.fmax
      (FF.fmax (slabT1 (FF.fin qmx) (FF.fin qMx) (FF.fin qox) ray.direction.x)
        (slabT1 (FF.fin qmy) (FF.fin qMy) (FF.fin qoy) ray.direction.y))
      (slabT1 (FF.fin qmz) (FF.fin qMz) (FF.fin qoz) ray.direction.z)) := by
    apply houter1.2
    rcases hsome with ⟨h, _⟩ | ⟨h, _⟩ | ⟨h, _⟩
    · exact Or.inl (hinner1.2 (Or.inl h))
    · exact Or.inl (hinner1.2 (Or.inr h))
    · exact Or.inr h
  have hinner2 := fmin_opt hp2x hp2y
  have houter2 := fmin_opt hinner2.1 hp2z
  have hfar : IsPos (FF.fmin
      (FF.fmin (slabT2 (FF.fin qmx) (FF.fin qMx) (FF.fin qox) ray.direction.x)
        (slabT2 (FF.fin qmy) (FF.fin qMy) (FF.fin qoy) ray.direction.y))
      (slabT2 (FF.fin qmz) (FF.fin qMz) (FF.fin qoz) ray.direction.z)) := by
    apply houter2.2
    rcases hsome with ⟨_, h⟩ | ⟨_, h⟩ | ⟨_, h⟩
    · exact Or.inl (hinner2.2 (Or.inl h))
    · exact Or.inl (hinner2.2 (Or.inr h))
    · exact Or.inr h
  rw [blt_of_isNeg_isPos hnear hfar, hfar.zero_blt]
  rfl

/-- **C6** (counterexample to the original claim).  A ray whose origin is
strictly inside the unit cube but whose direction is all-NaN is reported as a
miss: every slab interval is NaN, `t_near` and `t_far` are NaN, and the
comparison fails — so "arbitrary direction" does not hold without excluding
the all-NaN direction. -/
theorem intersect_node_nan_direction_misses :
    insideStrict nodeUnitCube rayCenterNan.origin = true
      ∧ intersectNode rayCenterNan nodeUnitCube = false := by
  constructor
  · with_unfolding_all rfl
  · with_unfolding_all rfl

/-- Witness for C6: the cube-center ray with axis-aligned direction
`(1,0,0)` (two zero components, exercising the division-by-zero slabs) is
reported as a hit. -/
theorem intersect_node_origin_inside_witness :
    intersectNode rayCenterX nodeUnitCube = true :=
  intersect_node_origin_inside rayCenterX nodeUnitCube
    (by with_unfolding_all rfl)
    (Or.inl (by simp [rayCenterX]))

/-- **C7** (confirmed).  (i) The per-pixel RNG seed is
`987612486 ·wrap (i + 87636354)` in wrapping 32-bit arithmetic; (ii) the RNG
is advanced by exactly the xorshift-32 steps
`x ^= x<<13; x ^= x>>17; x ^= x<<5`; (iii) the rendered image is the
pixel-index range mapped through a pure per-pixel function of the index and
the render parameters, so any decomposition of the index range into blocks
(any thread assignment) concatenates back to the identical byte output. -/
theorem renderer_per_pixel_determinism :
    (∀ i : Nat,
      seedOf i = 987612486 * ((i + 87636354) % 4294967296) % 4294967296)
    ∧ (∀ x : Nat, x < 4294967296 →
      xorShift x =
        ((x ^^^ ((x <<< 13) % 4294967296))
          ^^^ ((x ^^^ ((x <<< 13) % 4294967296)) >>> 17))
        ^^^ ((((x ^^^ ((x <<< 13) % 4294967296))
          ^^^ ((x ^^^ ((x <<< 13) % 4294967296)) >>> 17)) <<< 5) % 4294967296))
    ∧ (∀ (ops : FOps) (P : RParams) (scene : Scene) (W H : Nat)
        (blocks : List (List Nat)),
      blocks.flatten = List.range (W * H) →
      (blocks.map (List.map (pixelBytes ops P scene W H))).flatten =
        renderBytes ops P scene W H) := by
  refine ⟨fun i => ?_, fun x hx => ?_, fun ops P scene W H blocks hb => ?_⟩
  · simp [seedOf, Nat.mod_add_mod]
  · simp [xorShift, Nat.mod_eq_of_lt hx]
  · rw [renderBytes, ← hb, List.map_flatten]

/-- Witness for C7: the two-block decomposition of a 2×1 image reassembles to
the sequential render. -/
theorem renderer_per_pixel_determinism_witness :
    (blocksTwo.map (List.map (pixelBytes opsNan paramsDflt sceneNil 2 1))).flatten =
      renderBytes opsNan paramsDflt sceneNil 2 1 :=
  renderer_per_pixel_determinism.2.2 opsNan paramsDflt sceneNil 2 1 blocksTwo
    (by decide)

theorem wrapDown_spec (b : Int) (hb : 0 < b) :
    ∀ (fuel : Nat) (idx : Int), idx.toNat ≤ fuel →
      wrapDown fuel b idx = if b < idx then (idx - 1) % b + 1 else idx := by
  intro fuel
  induction fuel with
  | zero =>
    intro idx h
    show idx = _
    rw [if_neg (by omega)]
  | succ n ih =>
    intro idx h
    show (if b < idx then wrapDown n b (idx - b) else idx) = _
    by_cases hlt : b < idx
    · rw [if_pos hlt, if_pos hlt, ih (idx - b) (by omega)]
      by_cases h2 : b < idx - b
      · rw [if_pos h2]
        congr 1
        have he : idx - 1 = (idx - b - 1) + b * 1 := by ring
        rw [he, Int.add_mul_emod_self_left]
      · rw [if_neg h2]
        have h3 : (0 : Int) ≤ idx - 1 - b := by omega
        have h4 : idx - 1 - b < b := by omega
        have he : idx - 1 = (idx - 1 - b) + b * 1 := by ring
        have hmod : (idx - 1) % b = idx - 1 - b := by
          rw [he, Int.add_mul_emod_self_left, Int.emod_eq_of_lt h3 h4]
          omega
        omega
    · rw [if_neg hlt, if_neg hlt]

theorem wrapUp_spec (b : Int) (hb : 0 < b) :
    ∀ (fuel : Nat) (idx : Int), (-idx).toNat ≤ fuel →
      wrapUp fuel b idx = if idx < 0 then idx % b else idx := by
  intro fuel
  induction fuel with
  | zero =>
    intro idx h
    show idx = _
    rw [if_neg (by omega)]
  | succ n ih =>
    intro idx h
    show (if idx < 0 then wrapUp n b (idx + b) else idx) = _
    by_cases hlt : idx < 0
    · rw [if_pos hlt, if_pos hlt, ih (idx + b) (by omega)]
      by_cases h2 : idx + b < 0
      · rw [if_pos h2]
        have he : idx = (idx + b) + b * (-1) := by ring
        conv_rhs => rw [he]
        rw [Int.add_mul_emod_self_left]
      · rw [if_neg h2]
        have h3 : (0 : Int) ≤ idx + b := by omega
        have h4 : idx + b < b := by omega
        have he : idx = (idx + b) + b * (-1) := by ring
        have hmod : idx % b = idx + b := by
          rw [he, Int.add_mul_emod_self_left, Int.emod_eq_of_lt h3 h4]
          omega
        omega
    · rw [if_neg hlt, if_neg hlt]

/-- **C8** (amended).  `Texture::color_at` computes `i` and `j` by the Rust
`as i32` cast — truncation toward zero (not `floor`) — forms
`idx = i + j·W`, then while `idx > len−1` subtracts `len−1` and while
`idx < 0` adds `len−1` (`len` is the pixel array's length): equivalently, an
over-range index lands on `((idx−1) mod (len−1)) + 1`, a negative one on
`idx mod (len−1)`, and an in-range index — including `idx = len−1` — is used
unchanged.  The claim's unconditional wrap `((idx−1) mod (len−1))` is off by
one in the over-range case and wrong for in-range indices (counterexample
below). -/
theorem color_at_eq (tex : Texture) (uv : FF × FF)
    (hlen : 2 ≤ tex.pixelData.length) :
    colorAt tex uv =
      (let i := FF.toI32 (FF.mul uv.1 (FF.ofNat tex.width))
       let j := FF.toI32 (FF.mul uv.2 (FF.ofNat tex.height))
       let len : Int := tex.pixelData.length
       let idx : Int := i + j * tex.width
       let w : Int :=
         if len - 1 < idx then (idx - 1) % (len - 1) + 1
         else if idx < 0 then idx % (len - 1) else idx
       tex.pixelData.getD w.toNat (0, 0, 0)) := by
  have hb : (0 : Int) < (tex.pixelData.length : Int) - 1 := by
    have h2 : (2 : Int) ≤ (tex.pixelData.length : Int) := by exact_mod_cast hlen
    omega
  simp only [colorAt]
  rw [wrapDown_spec _ hb _ _ (by omega)]
  set i := FF.toI32 (FF.mul uv.1 (FF.ofNat tex.width)) with hi
  set j := FF.toI32 (FF.mul uv.2 (FF.ofNat tex.height)) with hj
  set len : Int := (tex.pixelData.length : Int) with hlendef
  set idx : Int := i + j * (tex.width : Int) with hidx
  by_cases h1 : len - 1 < idx
  · rw [if_pos h1]
    have hnn : (0 : Int) ≤ (idx - 1) % (len - 1) :=
      Int.emod_nonneg _ (by omega)
    rw [wrapUp_spec _ hb _ _ (by omega)]
    rw [if_neg (by omega), if_pos h1]
  · rw [if_neg h1]
    rw [wrapUp_spec _ hb _ _ (by omega)]
    rw [if_neg h1]

/-- Witness for C8: the amended characterization evaluated on the 4×4
gradient texture at `uv = (1.25, 0)`. -/
theorem color_at_eq_witness :
    colorAt texGrad uvFive =
      (let i := FF.toI32 (FF.mul uvFive.1 (FF.ofNat texGrad.width))
       let j := FF.toI32 (FF.mul uvFive.2 (FF.ofNat texGrad.height))
       let len : Int := texGrad.pixelData.length
       let idx : Int := i + j * texGrad.width
       let w : Int :=
         if len - 1 < idx then (idx - 1) % (len - 1) + 1
         else if idx < 0 then idx % (len - 1) else idx
       texGrad.pixelData.getD w.toNat (0, 0, 0)) :=
  color_at_eq texGrad uvFive (by decide)

/-- **C8** (counterexample to the original claim).  At `uv = (1.25, 0)` on
the 4×4 texture, `idx = 5` is in range and the code returns pixel `5`; the
claim's wrap `((idx − 1) mod (len − 1))` would return pixel `4`. -/
theorem color_at_deviates_from_spec :
    colorAt texGrad uvFive = (5, 0, 0)
      ∧ colorAtPerSpec texGrad uvFive = (4, 0, 0) := by
  constructor
  · with_unfolding_all rfl
  · with_unfolding_all rfl

theorem FF.add_zero_wf {c : FF} (h : FF.wf c = true) :
    FF.add c (FF.fin 0) = c := by
  rcases c with _ | s | q
  · rfl
  · rfl
  · show FF.mk (q + 0) = FF.fin q
    rw [add_zero]
    simp only [FF.wf, Bool.and_eq_true, decide_eq_true_eq] at h
    unfold FF.mk
    rw [if_neg (not_lt.mpr h.2), if_neg (not_lt.mpr h.1)]

theorem V3.vadd_zero_wf {v : V3} (h : V3.wf v = true) :
    V3.vadd v V3.zero = v := by
  simp only [V3.wf, Bool.and_eq_true] at h
  show V3.mk (FF.add v.x (FF.fin 0)) (FF.add v.y (FF.fin 0)) (FF.add v.z (FF.fin 0)) = v
  rw [FF.add_zero_wf h.1.1, FF.add_zero_wf h.1.2, FF.add_zero_wf h.2]

theorem smul_zero_eps : V3.smul V3.zero (FF.fin (1 / 10000)) = V3.zero := by
  with_unfolding_all rfl

/-- **C10** (confirmed).  Under total internal reflection (`k < 0`),
`Vec3f::refract` returns the zero vector; consequently when the integrator's
bounce takes the refraction branch with `k < 0`, the continuing ray has
direction `(0,0,0)` and origin exactly the hit point (the advance
`new_dir · 1e-4` vanishes).  The well-formedness hypothesis on the hit point
is a model artifact: every real `f32` value satisfies it. -/
theorem refract_tir_continues_with_zero_direction (ops : FOps) (scene : Scene)
    (st : TState) (hi : HitInfo)
    (hhi : hi = traverseBvh scene st.ray (scene.nodes.length + 1) 0 HitInfo.dflt)
    (hhit : hi.hasHit = true) (ior : FF)
    (hior : ior =
      (if hi.frontFace then
        FF.div (FF.fin 1) (scene.materials.getD hi.materialId Material.dflt).ior
      else (scene.materials.getD hi.materialId Material.dflt).ior))
    (hbranch : FF.blt (randF32 st.rng).1
      (schlickFresnel (V3.dot hi.normal st.ray.direction.reversed) ior) = false)
    (htir : FF.blt (refractK st.ray.direction hi.normal ior) (FF.fin 0) = true)
    (hwf : V3.wf hi.point = true) :
    refract st.ray.direction hi.normal ior = V3.zero
      ∧ (bounceStep ops scene st).1.ray = ⟨hi.point, V3.zero⟩ := by
  have hrefr : refract st.ray.direction hi.normal ior = V3.zero := by
    simp [refract, htir]
  refine ⟨hrefr, ?_⟩
  simp only [bounceStep]
  rw [← hhi]
  simp only [hhit, if_true, ← hior, hbranch, Bool.false_eq_true, if_false, hrefr]
  rw [smul_zero_eps, V3.vadd_zero_wf hwf]

/-- Witness for C10: the concrete glass scene, back-face oblique ray and RNG
state exercise every hypothesis, and the bounce continues from the hit point
`(1/4, 1/4, 0)` with the zero direction. -/
theorem refract_tir_continues_with_zero_direction_witness :
    refract rayTIR.direction
        (traverseBvh sceneTIR rayTIR (sceneTIR.nodes.length + 1) 0
          HitInfo.dflt).normal (FF.fin 2) = V3.zero
      ∧ (bounceStep opsNan sceneTIR (TState.init rayTIR rngTIR)).1.ray =
        ⟨(traverseBvh sceneTIR rayTIR (sceneTIR.nodes.length + 1) 0
          HitInfo.dflt).point, V3.zero⟩ := by
  have h := refract_tir_continues_with_zero_direction opsNan sceneTIR
    (TState.init rayTIR rngTIR)
    (traverseBvh sceneTIR (TState.init rayTIR rngTIR).ray
      (sceneTIR.nodes.length + 1) 0 HitInfo.dflt)
    rfl
    (by with_unfolding_all rfl)
    (FF.fin 2)
    (by with_unfolding_all rfl)
    (by with_unfolding_all rfl)
    (by with_unfolding_all rfl)
    (by with_unfolding_all rfl)
  exact h

theorem le_sum_map_of_get {α : Type} (f : α → Nat) :
    ∀ (l : List α) (i : Nat) (a : α), l.get? i = some a →
      f a ≤ (l.map f).sum := by
  intro l
  induction l with
  | nil => intro i a h; simp at h
  | cons x t ih =>
    intro i a h
    cases i with
    | zero =>
      simp only [List.get?_cons_zero, Option.some.injEq] at h
      subst h
      simp only [List.map_cons, List.sum_cons]
      exact Nat.le_add_right _ _
    | succ i =>
      simp only [List.get?_cons_succ] at h
      simp only [List.map_cons, List.sum_cons]
      exact le_trans (ih i a h) (Nat.le_add_left _ _)

theorem two_le_sum_map_of_get {α : Type} (f : α → Nat) :
    ∀ (l : List α) (i j : Nat) (a b : α), i < j →
      l.get? i = some a → l.get? j = some b →
      f a + f b ≤ (l.map f).sum := by
  intro l
  induction l with
  | nil => intro i j a b _ h; simp at h
  | cons x t ih =>
    intro i j a b hij h1 h2
    cases j with
    | zero => omega
    | succ j =>
      simp only [List.get?_cons_succ] at h2
      cases i with
      | zero =>
        simp only [List.get?_cons_zero, Option.some.injEq] at h1
        subst h1
        simp only [List.map_cons, List.sum_cons]
        have := le_sum_map_of_get f t j b h2
        omega
      | succ i =>
        simp only [List.get?_cons_succ] at h1
        simp only [List.map_cons, List.sum_cons]
        have := ih i j a b (by omega) h1 h2
        omega

theorem sum_map_set {α : Type} (f : α → Nat) :
    ∀ (l : List α) (i : Nat) (a b : α), l.get? i = some a →
      ((l.set i b).map f).sum + f a = (l.map f).sum + f b := by
  intro l
  induction l with
  | nil => intro i a b h; simp at h
  | cons x t ih =>
    intro i a b h
    cases i with
    | zero =>
      simp only [List.get?_cons_zero, Option.some.injEq] at h
      subst h
      simp only [List.set_cons_zero, List.map_cons, List.sum_cons]
      omega
    | succ i =>
      simp only [List.get?_cons_succ] at h
      simp only [List.set_cons_succ, List.map_cons, List.sum_cons]
      have := ih i a b h
      omega

theorem set_get_self {α : Type} :
    ∀ (l : List α) (i : Nat) (a : α), l.get? i = some a → l.set i a = l := by
  intro l
  induction l with
  | nil => intro i a h; simp at h
  | cons x t ih =>
    intro i a h
    cases i with
    | zero =>
      simp only [List.get?_cons_zero, Option.some.injEq] at h
      subst h
      rfl
    | succ i =>
      simp only [List.get?_cons_succ] at h
      simp only [List.set_cons_succ]
      rw [ih i a h]

theorem cons_set_perm {α : Type} :
    ∀ (t : List α) (j : Nat) (a b : α), t.get? j = some b →
      (b :: t.set j a).Perm (a :: t) := by
  intro t
  induction t with
  | nil => intro j a b h; simp at h
  | cons y s ih =>
    intro j a b h
    cases j with
    | zero =>
      simp only [List.get?_cons_zero, Option.some.injEq] at h
      subst h
      simp only [List.set_cons_zero]
      exact List.Perm.swap a y s
    | succ j =>
      simp only [List.get?_cons_succ] at h
      simp only [List.set_cons_succ]
      exact ((List.Perm.swap y b _).trans
        ((ih j a b h).cons y)).trans (List.Perm.swap a y s)

theorem set_set_perm {α : Type} :
    ∀ (l : List α) (i j : Nat) (a b : α), i < j →
      l.get? i = some a → l.get? j = some b →
      ((l.set i b).set j a).Perm l := by
  intro l
  induction l with
  | nil => intro i j a b _ h; simp at h
  | cons x t ih =>
    intro i j a b hij h1 h2
    cases j with
    | zero => omega
    | succ j =>
      simp only [List.get?_cons_succ] at h2
      cases i with
      | zero =>
        simp only [List.get?_cons_zero, Option.some.injEq] at h1
        subst h1
        simp only [List.set_cons_zero, List.set_cons_succ]
        exact cons_set_perm t j x b h2
      | succ i =>
        simp only [List.get?_cons_succ] at h1
        simp only [List.set_cons_succ]
        exact (ih i j a b (by omega) h1 h2).cons x

theorem swapL_length (l : List Tri) (i j : Nat) :
    (swapL l i j).length = l.length := by
  unfold swapL
  cases h1 : l.get? i with
  | none => rfl
  | some a =>
    cases h2 : l.get? j with
    | none => rfl
    | some b =>
      show ((l.set i b).set j a).length = l.length
      simp

theorem swapL_perm (l : List Tri) (i j : Nat) (hij : i ≤ j) :
    (swapL l i j).Perm l := by
  unfold swapL
  cases h1 : l.get? i with
  | none => cases h2 : l.get? j <;> exact List.Perm.refl l
  | some a =>
    cases h2 : l.get? j with
    | none => exact List.Perm.refl l
    | some b =>
      show ((l.set i b).set j a).Perm l
      rcases Nat.lt_or_ge i j with hlt | hge
      · exact set_set_perm l i j a b hlt h1 h2
      · have heq : i = j := le_antisymm hij hge
        subst heq
        rw [List.set_set]
        have hab : a = b := by rw [h1] at h2; exact (Option.some.injEq _ _).mp h2
        subst hab
        rw [set_get_self l i a h1]

theorem swapL_get?_ne (l : List Tri) (i j m : Nat) (hmi : m ≠ i) (hmj : m ≠ j) :
    (swapL l i j).get? m = l.get? m := by
  unfold swapL
  cases h1 : l.get? i with
  | none => cases h2 : l.get? j <;> rfl
  | some a =>
    cases h2 : l.get? j with
    | none => rfl
    | some b =>
      show ((l.set i b).set j a).get? m = l.get? m
      simp only [List.get?_eq_getElem?]
      rw [List.getElem?_set_ne (fun h => hmj h.symm),
        List.getElem?_set_ne (fun h => hmi h.symm)]

theorem partitionLoop_spec (splitAxis : Nat) (splitPos : FF) :
    ∀ (fuel i j : Nat) (tris : List Tri) (i' : Nat) (tris' : List Tri),
      partitionLoop splitAxis splitPos fuel i j tris = .ok (i', tris') →
      i ≤ j + 1 →
      tris'.length = tris.length ∧ tris'.Perm tris ∧ i ≤ i' ∧ i' ≤ j + 1 ∧
        (∀ m, m < i ∨ j < m → tris'.get? m = tris.get? m) := by
  intro fuel
  induction fuel with
  | zero => intro i j tris i' tris' h _; simp [partitionLoop] at h
  | succ fuel ih =>
    intro i j tris i' tris' h hij
    rw [partitionLoop] at h
    by_cases hle : i ≤ j
    · rw [if_pos hle] at h
      split at h
      · simp at h
      · next t hget =>
        split at h
        · next hblt =>
          obtain ⟨hlen, hperm, hi1, hi2, hout⟩ :=
            ih (i + 1) j tris i' tris' h (by omega)
          exact ⟨hlen, hperm, by omega, hi2, fun m hm => hout m (by omega)⟩
        · next hblt =>
          split at h
          · simp at h
          · next hjlen =>
            split at h
            · simp at h
            · next hj0 =>
              obtain ⟨hlen, hperm, hi1, hi2, hout⟩ :=
                ih i (j - 1) (swapL tris i j) i' tris' h (by omega)
              refine ⟨hlen.trans (swapL_length tris i j), ?_, hi1, by omega, ?_⟩
              · exact hperm.trans (swapL_perm tris i j hle)
              · intro m hm
                rw [hout m (by omega), swapL_get?_ne tris i j m (by omega) (by omega)]
    · rw [if_neg hle] at h
      simp only [Except.ok.injEq, Prod.mk.injEq] at h
      obtain ⟨h1, h2⟩ := h
      subst h1; subst h2
      exact ⟨rfl, List.Perm.refl _, le_refl _, by omega,
        fun m _ => rfl⟩

theorem ble_ne_nan {x y : FF} (h : FF.ble x y = true) :
    x ≠ FF.nan ∧ y ≠ FF.nan := by
  rcases x with _ | sx | qx <;> rcases y with _ | sy | qy <;>
    simp_all [FF.ble, FF.blt, FF.beq]

theorem ble_trans {x y z : FF} (h1 : FF.ble x y = true)
    (h2 : FF.ble y z = true) : FF.ble x z = true := by
  rcases x with _ | sx | qx <;> rcases y with _ | sy | qy <;>
    rcases z with _ | sz | qz <;>
    simp_all [FF.ble, FF.blt, FF.beq] <;>
    try (cases sx <;> simp_all) <;>
    try (cases sy <;> simp_all) <;>
    try (cases sz <;> simp_all)
  · rcases h1 with h1 | h1 <;> rcases h2 with h2 | h2 <;>
      first
        | (left; linarith)
        | (subst h1; simp_all)
        | (subst h2; simp_all)

theorem ble_total {x y : FF} (hx : x ≠ FF.nan) (hy : y ≠ FF.nan) :
    FF.ble x y = true ∨ FF.ble y x = true := by
  rcases x with _ | sx | qx <;> rcases y with _ | sy | qy <;>
    simp_all [FF.ble, FF.blt, FF.beq] <;>
    try (cases sx <;> simp_all) <;>
    try (cases sy <;> simp_all)
  · rcases le_total qx qy with h | h
    · rcases lt_or_eq_of_le h with h | h
      · exact Or.inl (Or.inl h)
      · exact Or.inl (Or.inr h)
    · rcases lt_or_eq_of_le h with h | h
      · exact Or.inr (Or.inl h)
      · exact Or.inl (Or.inr h.symm)

theorem ble_refl {x : FF} (h : x ≠ FF.nan) : FF.ble x x = true := by
  rcases x with _ | s | q
  · exact absurd rfl h
  · simp [FF.ble, FF.beq]
  · simp [FF.ble, FF.beq]

theorem fmin_ne_nan {x y : FF} (hx : x ≠ FF.nan) (hy : y ≠ FF.nan) :
    FF.fmin x y ≠ FF.nan := by
  obtain ⟨e, _⟩ := fmin_of_nonnan hx hy
  rw [e]
  by_cases hb : FF.ble x y = true
  · rw [if_pos hb]; exact hx
  · rw [if_neg hb]; exact hy

theorem fmax_ne_nan {x y : FF} (hx : x ≠ FF.nan) (hy : y ≠ FF.nan) :
    FF.fmax x y ≠ FF.nan := by
  obtain ⟨_, e⟩ := fmin_of_nonnan hx hy
  rw [e]
  by_cases hb : FF.ble x y = true
  · rw [if_pos hb]; exact hy
  · rw [if_neg hb]; exact hx

theorem ble_fmin_left {a p c : FF} (ha : FF.ble a c = true) (hp : p ≠ FF.nan) :
    FF.ble (FF.fmin a p) c = true := by
  have hnn := ble_ne_nan ha
  obtain ⟨e1, _⟩ := fmin_of_nonnan hnn.1 hp
  rw [e1]
  by_cases hb : FF.ble a p = true
  · rw [if_pos hb]; exact ha
  · rw [if_neg hb]
    rcases ble_total hnn.1 hp with h | h
    · exact absurd h hb
    · exact ble_trans h ha

theorem ble_fmax_right {a p c : FF} (ha : FF.ble c a = true) (hp : p ≠ FF.nan) :
    FF.ble c (FF.fmax a p) = true := by
  have hnn := ble_ne_nan ha
  obtain ⟨_, e2⟩ := fmin_of_nonnan hnn.2 hp
  rw [e2]
  by_cases hb : FF.ble a p = true
  · rw [if_pos hb]; exact ble_trans ha hb
  · rw [if_neg hb]; exact ha

theorem fmin_le_left {x y : FF} (hx : x ≠ FF.nan) (hy : y ≠ FF.nan) :
    FF.ble (FF.fmin x y) x = true := by
  obtain ⟨e1, _⟩ := fmin_of_nonnan hx hy
  rw [e1]
  by_cases hb : FF.ble x y = true
  · rw [if_pos hb]; exact ble_refl hx
  · rw [if_neg hb]
    rcases ble_total hx hy with h | h
    · exact absurd h hb
    · exact h

theorem fmin_le_right {x y : FF} (hx : x ≠ FF.nan) (hy : y ≠ FF.nan) :
    FF.ble (FF.fmin x y) y = true := by
  obtain ⟨e1, _⟩ := fmin_of_nonnan hx hy
  rw [e1]
  by_cases hb : FF.ble x y = true
  · rw [if_pos hb]; exact hb
  · rw [if_neg hb]; exact ble_refl hy

theorem fmax_ge_left {x y : FF} (hx : x ≠ FF.nan) (hy : y ≠ FF.nan) :
    FF.ble x (FF.fmax x y) = true := by
  obtain ⟨_, e2⟩ := fmin_of_nonnan hx hy
  rw [e2]
  by_cases hb : FF.ble x y = true
  · rw [if_pos hb]; exact hb
  · rw [if_neg hb]; exact ble_refl hx

theorem fmax_ge_right {x y : FF} (hx : x ≠ FF.nan) (hy : y ≠ FF.nan) :
    FF.ble y (FF.fmax x y) = true := by
  obtain ⟨_, e2⟩ := fmin_of_nonnan hx hy
  rw [e2]
  by_cases hb : FF.ble x y = true
  · rw [if_pos hb]; exact ble_refl hy
  · rw [if_neg hb]
    rcases ble_total hx hy with h | h
    · exact absurd h hb
    · exact h

theorem notNan_iff {x : FF} : FF.notNan x = true ↔ x ≠ FF.nan := by
  rcases x with _ | s | q <;> simp [FF.notNan]

theorem posNotNan_fields {t : Tri} (h : Tri.posNotNan t = true) :
    t.v0.px ≠ FF.nan ∧ t.v0.py ≠ FF.nan ∧ t.v0.pz ≠ FF.nan
      ∧ t.v1.px ≠ FF.nan ∧ t.v1.py ≠ FF.nan ∧ t.v1.pz ≠ FF.nan
      ∧ t.v2.px ≠ FF.nan ∧ t.v2.py ≠ FF.nan ∧ t.v2.pz ≠ FF.nan := by
  simp only [Tri.posNotNan, Bool.and_eq_true, notNan_iff] at h
  tauto

theorem chain3_min {m a0 a1 a2 : FF} (hm : m ≠ FF.nan) (h0 : a0 ≠ FF.nan)
    (h1 : a1 ≠ FF.nan) (h2 : a2 ≠ FF.nan) :
    FF.ble (FF.fmin (FF.fmin (FF.fmin m a0) a1) a2) a0 = true
      ∧ FF.ble (FF.fmin (FF.fmin (FF.fmin m a0) a1) a2) a1 = true
      ∧ FF.ble (FF.fmin (FF.fmin (FF.fmin m a0) a1) a2) a2 = true := by
  have n1 : FF.fmin m a0 ≠ FF.nan := fmin_ne_nan hm h0
  have n2 : FF.fmin (FF.fmin m a0) a1 ≠ FF.nan := fmin_ne_nan n1 h1
  have b10 : FF.ble (FF.fmin m a0) a0 = true := fmin_le_right hm h0
  have b21 : FF.ble (FF.fmin (FF.fmin m a0) a1) (FF.fmin m a0) = true :=
    fmin_le_left n1 h1
  have b32 : FF.ble (FF.fmin (FF.fmin (FF.fmin m a0) a1) a2)
      (FF.fmin (FF.fmin m a0) a1) = true := fmin_le_left n2 h2
  refine ⟨ble_trans b32 (ble_trans b21 b10), ?_, fmin_le_right n2 h2⟩
  exact ble_trans b32 (fmin_le_right n1 h1)

theorem chain3_max {m a0 a1 a2 : FF} (hm : m ≠ FF.nan) (h0 : a0 ≠ FF.nan)
    (h1 : a1 ≠ FF.nan) (h2 : a2 ≠ FF.nan) :
    FF.ble a0 (FF.fmax (FF.fmax (FF.fmax m a0) a1) a2) = true
      ∧ FF.ble a1 (FF.fmax (FF.fmax (FF.fmax m a0) a1) a2) = true
      ∧ FF.ble a2 (FF.fmax (FF.fmax (FF.fmax m a0) a1) a2) = true := by
  have n1 : FF.fmax m a0 ≠ FF.nan := fmax_ne_nan hm h0
  have n2 : FF.fmax (FF.fmax m a0) a1 ≠ FF.nan := fmax_ne_nan n1 h1
  have b10 : FF.ble a0 (FF.fmax m a0) = true := fmax_ge_right hm h0
  have b21 : FF.ble (FF.fmax m a0) (FF.fmax (FF.fmax m a0) a1) = true :=
    fmax_ge_left n1 h1
  have b32 : FF.ble (FF.fmax (FF.fmax m a0) a1)
      (FF.fmax (FF.fmax (FF.fmax m a0) a1) a2) = true := fmax_ge_left n2 h2
  refine ⟨ble_trans b10 (ble_trans b21 b32), ?_, fmax_ge_right n2 h2⟩
  exact ble_trans (fmax_ge_right n1 h1) b32

theorem bnn_dflt : BoundsNotNan Node.dflt := by
  refine ⟨?_, ?_, ?_, ?_, ?_, ?_⟩ <;> intro h <;> exact FF.noConfusion h

theorem bnn_grow {nd : Node} {t : Tri} (h : BoundsNotNan nd)
    (ht : Tri.posNotNan t = true) : BoundsNotNan (Node.growByTri nd t) := by
  obtain ⟨n0x, n0y, n0z, n1x, n1y, n1z, n2x, n2y, n2z⟩ := posNotNan_fields ht
  obtain ⟨m1, m2, m3, m4, m5, m6⟩ := h
  exact ⟨fmin_ne_nan (fmin_ne_nan (fmin_ne_nan m1 n0x) n1x) n2x,
    fmin_ne_nan (fmin_ne_nan (fmin_ne_nan m2 n0y) n1y) n2y,
    fmin_ne_nan (fmin_ne_nan (fmin_ne_nan m3 n0z) n1z) n2z,
    fmax_ne_nan (fmax_ne_nan (fmax_ne_nan m4 n0x) n1x) n2x,
    fmax_ne_nan (fmax_ne_nan (fmax_ne_nan m5 n0y) n1y) n2y,
    fmax_ne_nan (fmax_ne_nan (fmax_ne_nan m6 n0z) n1z) n2z⟩

theorem self_in_grow {nd : Node} {t : Tri} (h : BoundsNotNan nd)
    (ht : Tri.posNotNan t = true) :
    triInNode (Node.growByTri nd t) t = true := by
  obtain ⟨n0x, n0y, n0z, n1x, n1y, n1z, n2x, n2y, n2z⟩ := posNotNan_fields ht
  obtain ⟨m1, m2, m3, m4, m5, m6⟩ := h
  obtain ⟨lx0, lx1, lx2⟩ := chain3_min m1 n0x n1x n2x
  obtain ⟨ly0, ly1, ly2⟩ := chain3_min m2 n0y n1y n2y
  obtain ⟨lz0, lz1, lz2⟩ := chain3_min m3 n0z n1z n2z
  obtain ⟨ux0, ux1, ux2⟩ := chain3_max m4 n0x n1x n2x
  obtain ⟨uy0, uy1, uy2⟩ := chain3_max m5 n0y n1y n2y
  obtain ⟨uz0, uz1, uz2⟩ := chain3_max m6 n0z n1z n2z
  simp only [triInNode, vertInNode, coordIn, Bool.and_eq_true]
  exact ⟨⟨⟨⟨⟨lx0, ux0⟩, ly0, uy0⟩, lz0, uz0⟩,
    ⟨⟨⟨lx1, ux1⟩, ly1, uy1⟩, lz1, uz1⟩⟩,
    ⟨⟨⟨lx2, ux2⟩, ly2, uy2⟩, lz2, uz2⟩⟩

theorem vertInNode_grow {nd : Node} {t' : Tri} {v : Vertex}
    (h : vertInNode nd v = true) (ht : Tri.posNotNan t' = true) :
    vertInNode (Node.growByTri nd t') v = true := by
  obtain ⟨n0x, n0y, n0z, n1x, n1y, n1z, n2x, n2y, n2z⟩ := posNotNan_fields ht
  simp only [vertInNode, coordIn, Bool.and_eq_true] at h ⊢
  obtain ⟨⟨⟨hx1, hx2⟩, hy1, hy2⟩, hz1, hz2⟩ := h
  refine ⟨⟨⟨?_, ?_⟩, ?_, ?_⟩, ?_, ?_⟩
  · exact ble_fmin_left (ble_fmin_left (ble_fmin_left hx1 n0x) n1x) n2x
  · exact ble_fmax_right (ble_fmax_right (ble_fmax_right hx2 n0x) n1x) n2x
  · exact ble_fmin_left (ble_fmin_left (ble_fmin_left hy1 n0y) n1y) n2y
  · exact ble_fmax_right (ble_fmax_right (ble_fmax_right hy2 n0y) n1y) n2y
  · exact ble_fmin_left (ble_fmin_left (ble_fmin_left hz1 n0z) n1z) n2z
  · exact ble_fmax_right (ble_fmax_right (ble_fmax_right hz2 n0z) n1z) n2z

theorem triInNode_grow {nd : Node} {t' t0 : Tri}
    (h : triInNode nd t0 = true) (ht : Tri.posNotNan t' = true) :
    triInNode (Node.growByTri nd t') t0 = true := by
  simp only [triInNode, Bool.and_eq_true] at h ⊢
  exact ⟨⟨vertInNode_grow h.1.1 ht, vertInNode_grow h.1.2 ht⟩,
    vertInNode_grow h.2 ht⟩

theorem triInNode_growList {t0 : Tri} :
    ∀ (l : List Tri) (nd : Node), triInNode nd t0 = true →
      (∀ t ∈ l, Tri.posNotNan t = true) →
      triInNode (growList nd l) t0 = true := by
  intro l
  induction l with
  | nil => intro nd h _; exact h
  | cons a l ih =>
    intro nd h hnn
    have : growList nd (a :: l) = growList (Node.growByTri nd a) l := rfl
    rw [this]
    exact ih _ (triInNode_grow h (hnn a (List.mem_cons_self a l)))
      (fun t ht => hnn t (List.mem_cons_of_mem a ht))

theorem bnn_growList :
    ∀ (l : List Tri) (nd : Node), BoundsNotNan nd →
      (∀ t ∈ l, Tri.posNotNan t = true) → BoundsNotNan (growList nd l) := by
  intro l
  induction l with
  | nil => intro nd h _; exact h
  | cons a l ih =>
    intro nd h hnn
    exact ih _ (bnn_grow h (hnn a (List.mem_cons_self a l)))
      (fun t ht => hnn t (List.mem_cons_of_mem a ht))

theorem growList_contains :
    ∀ (l : List Tri) (nd : Node), BoundsNotNan nd →
      (∀ t ∈ l, Tri.posNotNan t = true) →
      ∀ t ∈ l, triInNode (growList nd l) t = true := by
  intro l
  induction l with
  | nil => intro nd _ _ t ht; exact absurd ht (List.not_mem_nil t)
  | cons a l ih =>
    intro nd hb hnn t ht
    have hgl : growList nd (a :: l) = growList (Node.growByTri nd a) l := rfl
    rcases List.mem_cons.mp ht with rfl | hmem
    · rw [hgl]
      exact triInNode_growList l _
        (self_in_grow hb (hnn t (List.mem_cons_self t l)))
        (fun u hu => hnn u (List.mem_cons_of_mem t hu))
    · rw [hgl]
      exact ih _ (bnn_grow hb (hnn a (List.mem_cons_self a l)))
        (fun u hu => hnn u (List.mem_cons_of_mem a hu)) t hmem

theorem triInNode_congr (nd' nd : Node) (t : Tri) (h1 : nd'.bmin = nd.bmin)
    (h2 : nd'.bmax = nd.bmax) : triInNode nd' t = triInNode nd t := by
  simp only [triInNode, vertInNode, coordIn, h1, h2]

theorem take_get? (l : List Tri) (k r : Nat) :
    (l.take k).get? r = if r < k then l.get? r else none := by
  simp only [List.get?_eq_getElem?, List.getElem?_take]

theorem drop_get? (l : List Tri) (k r : Nat) :
    (l.drop k).get? r = l.get? (k + r) := by
  simp only [List.get?_eq_getElem?, List.getElem?_drop]

theorem sliceOf_get? (l : List Tri) (f n r : Nat) :
    (sliceOf l f n).get? r = if r < n then l.get? (f + r) else none := by
  simp only [sliceOf, take_get?, drop_get?]

theorem sliceOf_congr {l l' : List Tri} {f n : Nat}
    (h : ∀ m, f ≤ m → m < f + n → l'.get? m = l.get? m) :
    sliceOf l' f n = sliceOf l f n := by
  apply List.ext_get?
  intro r
  rw [sliceOf_get?, sliceOf_get?]
  by_cases hr : r < n
  · rw [if_pos hr, if_pos hr]
    exact h (f + r) (Nat.le_add_right f r) (by omega)
  · rw [if_neg hr, if_neg hr]

theorem mem_sliceOf {l : List Tri} {f n : Nat} {t : Tri}
    (h : t ∈ sliceOf l f n) : t ∈ l := by
  exact ((List.take_sublist n (l.drop f)).trans (List.drop_sublist f l)).subset h

theorem sliceOf_decomp (l : List Tri) (f n : Nat) :
    l = l.take f ++ (sliceOf l f n ++ l.drop (f + n)) := by
  have h2 : l.drop (f + n) = (l.drop f).drop n := by
    rw [List.drop_drop, Nat.add_comm]
  rw [h2]
  show l = l.take f ++ ((l.drop f).take n ++ (l.drop f).drop n)
  rw [List.take_append_drop, List.take_append_drop]

theorem slice_perm_of_perm_outside {l l' : List Tri} {f n : Nat}
    (hperm : l'.Perm l)
    (hout : ∀ m, m < f ∨ f + n ≤ m → l'.get? m = l.get? m) :
    (sliceOf l' f n).Perm (sliceOf l f n) := by
  have ht : l'.take f = l.take f := by
    apply List.ext_get?
    intro r
    rw [take_get?, take_get?]
    by_cases hr : r < f
    · rw [if_pos hr, if_pos hr, hout r (Or.inl hr)]
    · rw [if_neg hr, if_neg hr]
  have hd : l'.drop (f + n) = l.drop (f + n) := by
    apply List.ext_get?
    intro r
    rw [drop_get?, drop_get?, hout (f + n + r) (Or.inr (Nat.le_add_right _ _))]
  have hB : l = l'.take f ++ (sliceOf l f n ++ l'.drop (f + n)) := by
    rw [ht, hd]; exact sliceOf_decomp l f n
  have h2 : (l'.take f ++ (sliceOf l' f n ++ l'.drop (f + n))).Perm
      (l'.take f ++ (sliceOf l f n ++ l'.drop (f + n))) := by
    rw [← sliceOf_decomp l' f n, ← hB]
    exact hperm
  have h3 := (List.perm_append_left_iff _).mp h2
  have h4 : ((sliceOf l' f n) ++ l'.drop (f + n)).Perm
      ((sliceOf l f n) ++ l'.drop (f + n)) := h3
  exact (List.perm_append_right_iff _).mp h4

theorem ble_ninf_left {y : FF} (hy : y ≠ FF.nan) :
    FF.ble (FF.inf false) y = true := by
  rcases y with _ | s | q
  · exact absurd rfl hy
  · cases s <;> rfl
  · rfl

theorem ble_pinf_right {y : FF} (hy : y ≠ FF.nan) :
    FF.ble y (FF.inf true) = true := by
  rcases y with _ | s | q
  · exact absurd rfl hy
  · cases s <;> rfl
  · rfl

theorem ble_pinf_down {c : FF} (h : FF.ble (FF.inf true) c = true) :
    c = FF.inf true := by
  rcases c with _ | s | q
  · simp [FF.ble, FF.blt, FF.beq] at h
  · cases s
    · simp [FF.ble, FF.blt, FF.beq] at h
    · rfl
  · simp [FF.ble, FF.blt, FF.beq] at h

theorem ble_ninf_up {c : FF} (h : FF.ble c (FF.inf false) = true) :
    c = FF.inf false := by
  rcases c with _ | s | q
  · simp [FF.ble, FF.blt, FF.beq] at h
  · cases s
    · rfl
    · simp [FF.ble, FF.blt, FF.beq] at h
  · simp [FF.ble, FF.blt, FF.beq] at h

theorem ble_sub_eps {lo c : FF} (hwf : FF.wf c = true)
    (h : FF.ble lo c = true) :
    FF.ble (FF.sub lo (FF.fin (1 / 10000))) c = true := by
  have hnn := ble_ne_nan h
  rcases lo with _ | s | q
  · exact absurd rfl hnn.1
  · cases s
    · exact ble_ninf_left hnn.2
    · have hc := ble_pinf_down h
      subst hc
      rfl
  · have hsub : FF.sub (FF.fin q) (FF.fin (1 / 10000)) = FF.mk (q - 1 / 10000) :=
      sub_fin_eq_mk q (1 / 10000)
    rw [hsub]
    unfold FF.mk
    by_cases h1 : f32MaxQ < q - 1 / 10000
    · rw [if_pos h1]
      rcases c with _ | sc | qc
      · exact absurd rfl hnn.2
      · cases sc
        · simp [FF.ble, FF.blt, FF.beq] at h
        · rfl
      · have hq : q < qc ∨ q = qc := by
          simpa [FF.ble, FF.blt, FF.beq] using h
        have hwfc : -f32MaxQ ≤ qc ∧ qc ≤ f32MaxQ := by
          simpa [FF.wf] using hwf
        have hgt : f32MaxQ < qc := by
          rcases hq with h2 | h2 <;> linarith
        linarith [hwfc.2]
    · rw [if_neg h1]
      by_cases h2 : q - 1 / 10000 < -f32MaxQ
      · rw [if_pos h2]; exact ble_ninf_left hnn.2
      · rw [if_neg h2]
        rcases c with _ | sc | qc
        · exact absurd rfl hnn.2
        · cases sc
          · simp [FF.ble, FF.blt, FF.beq] at h
          · rfl
        · have hq : q < qc ∨ q = qc := by
            simpa [FF.ble, FF.blt, FF.beq] using h
          have hlt : q - 1 / 10000 < qc := by rcases hq with h3 | h3 <;> linarith
          simp only [FF.ble, FF.blt, FF.beq, Bool.or_eq_true, decide_eq_true_eq]
          left
          linarith

theorem ble_add_eps {hi c : FF} (hwf : FF.wf c = true)
    (h : FF.ble c hi = true) :
    FF.ble c (FF.add hi (FF.fin (1 / 10000))) = true := by
  have hnn := ble_ne_nan h
  rcases hi with _ | s | q
  · exact absurd rfl hnn.2
  · cases s
    · have hc := ble_ninf_up h
      subst hc
      rfl
    · exact ble_pinf_right hnn.1
  · have hadd : FF.add (FF.fin q) (FF.fin (1 / 10000)) = FF.mk (q + 1 / 10000) :=
      rfl
    rw [hadd]
    unfold FF.mk
    by_cases h1 : f32MaxQ < q + 1 / 10000
    · rw [if_pos h1]; exact ble_pinf_right hnn.1
    · rw [if_neg h1]
      by_cases h2 : q + 1 / 10000 < -f32MaxQ
      · rw [if_pos h2]
        rcases c with _ | sc | qc
        · exact absurd rfl hnn.1
        · cases sc
          · rfl
          · simp [FF.ble, FF.blt, FF.beq] at h
        · have hq : qc < q ∨ qc = q := by
            simpa [FF.ble, FF.blt, FF.beq] using h
          have hwfc : -f32MaxQ ≤ qc ∧ qc ≤ f32MaxQ := by
            simpa [FF.wf] using hwf
          have : qc < -f32MaxQ := by rcases hq with h3 | h3 <;> linarith
          linarith [hwfc.1]
      · rw [if_neg h2]
        rcases c with _ | sc | qc
        · exact absurd rfl hnn.1
        · cases sc
          · rfl
          · simp [FF.ble, FF.blt, FF.beq] at h
        · have hq : qc < q ∨ qc = q := by
            simpa [FF.ble, FF.blt, FF.beq] using h
          have hlt : qc < q + 1 / 10000 := by rcases hq with h3 | h3 <;> linarith
          simp only [FF.ble, FF.blt, FF.beq, Bool.or_eq_true, decide_eq_true_eq]
          left
          linarith

theorem posWf_fields {t : Tri} (h : Tri.posWf t = true) :
    FF.wf t.v0.px = true ∧ FF.wf t.v0.py = true ∧ FF.wf t.v0.pz = true
      ∧ FF.wf t.v1.px = true ∧ FF.wf t.v1.py = true ∧ FF.wf t.v1.pz = true
      ∧ FF.wf t.v2.px = true ∧ FF.wf t.v2.py = true ∧ FF.wf t.v2.pz = true := by
  simp only [Tri.posWf, Bool.and_eq_true] at h
  tauto

theorem triInNode_eps {nd : Node} {t : Tri} (hwf : Tri.posWf t = true)
    (h : triInNode nd t = true) : triInNodeEps nd t = true := by
  obtain ⟨w0x, w0y, w0z, w1x, w1y, w1z, w2x, w2y, w2z⟩ := posWf_fields hwf
  simp only [triInNodeEps, triInNode, vertInNode, coordIn, Bool.and_eq_true]
    at h ⊢
  obtain ⟨⟨⟨⟨⟨lx0, ux0⟩, ly0, uy0⟩, lz0, uz0⟩,
    ⟨⟨⟨lx1, ux1⟩, ly1, uy1⟩, lz1, uz1⟩⟩,
    ⟨⟨⟨lx2, ux2⟩, ly2, uy2⟩, lz2, uz2⟩⟩ := h
  exact ⟨⟨⟨⟨⟨ble_sub_eps w0x lx0, ble_add_eps w0x ux0⟩,
      ble_sub_eps w0y ly0, ble_add_eps w0y uy0⟩,
      ble_sub_eps w0z lz0, ble_add_eps w0z uz0⟩,
    ⟨⟨⟨ble_sub_eps w1x lx1, ble_add_eps w1x ux1⟩,
      ble_sub_eps w1y ly1, ble_add_eps w1y uy1⟩,
      ble_sub_eps w1z lz1, ble_add_eps w1z uz1⟩⟩,
    ⟨⟨⟨ble_sub_eps w2x lx2, ble_add_eps w2x ux2⟩,
      ble_sub_eps w2y ly2, ble_add_eps w2y uy2⟩,
      ble_sub_eps w2z lz2, ble_add_eps w2z uz2⟩⟩

theorem get?_append_left {α : Type} (l1 l2 : List α) (i : Nat)
    (h : i < l1.length) : (l1 ++ l2).get? i = l1.get? i := by
  simp only [List.get?_eq_getElem?]
  exact List.getElem?_append_left h

theorem get?_append_right {α : Type} (l1 l2 : List α) (k : Nat) :
    (l1 ++ l2).get? (l1.length + k) = l2.get? k := by
  simp only [List.get?_eq_getElem?]
  rw [List.getElem?_append_right (Nat.le_add_right _ _)]
  simp

theorem set_get?_ne {α : Type} (l : List α) (i p : Nat) (v : α) (h : i ≠ p) :
    (l.set i v).get? p = l.get? p := by
  simp only [List.get?_eq_getElem?]
  exact List.getElem?_set_ne h

theorem set_get?_self {α : Type} (l : List α) (i : Nat) (v : α)
    (h : i < l.length) : (l.set i v).get? i = some v := by
  simp only [List.get?_eq_getElem?]
  rw [List.getElem?_set_self h]

theorem get?_some_lt {α : Type} {l : List α} {i : Nat} {a : α}
    (h : l.get? i = some a) : i < l.length := by
  by_contra hh
  rw [List.get?_eq_none.mpr (by omega)] at h
  exact Option.noConfusion h

theorem leafCount_append (l1 l2 : List Node) (k : Nat) :
    leafCount (l1 ++ l2) k = leafCount l1 k + leafCount l2 k := by
  simp [leafCount, List.map_append, List.sum_append]

theorem leafCount_pair (a b : Node) (k : Nat) :
    leafCount [a, b] k = leafContrib k a + leafContrib k b := by
  simp [leafCount, leafContrib]

theorem contrib_eval (k : Nat) (nd : Node) :
    leafContrib k nd = if 0 < nd.numTris ∧ nd.firstTriId ≤ k
      ∧ k < nd.firstTriId + nd.numTris then 1 else 0 := rfl

theorem leaf_ranges_disjoint {nodes : List Node} {N : Nat}
    (hcount : ∀ k, leafCount nodes k = if k < N then 1 else 0)
    {p q : Nat} {ndp ndq : Node} (hp : nodes.get? p = some ndp)
    (hq : nodes.get? q = some ndq) (hne : p ≠ q)
    (hnp : 0 < ndp.numTris) (hnq : 0 < ndq.numTris) {k : Nat}
    (hkp : ndp.firstTriId ≤ k ∧ k < ndp.firstTriId + ndp.numTris)
    (hkq : ndq.firstTriId ≤ k ∧ k < ndq.firstTriId + ndq.numTris) : False := by
  have c1 : leafContrib k ndp = 1 := by
    rw [contrib_eval, if_pos ⟨hnp, hkp.1, hkp.2⟩]
  have c2 : leafContrib k ndq = 1 := by
    rw [contrib_eval, if_pos ⟨hnq, hkq.1, hkq.2⟩]
  have h2 : 2 ≤ leafCount nodes k := by
    rcases Nat.lt_or_ge p q with hlt | hge
    · have := two_le_sum_map_of_get (leafContrib k) nodes p q ndp ndq hlt hp hq
      unfold leafCount
      omega
    · have hlt : q < p := by omega
      have := two_le_sum_map_of_get (leafContrib k) nodes q p ndq ndp hlt hq hp
      unfold leafCount
      omega
  have h3 := hcount k
  by_cases hk : k < N
  · rw [if_pos hk] at h3; omega
  · rw [if_neg hk] at h3; omega

theorem frame_refl (idx : Nat) (st : BState) : SplitFrame idx st st := by
  refine ⟨rfl, List.Perm.refl _, le_refl _, fun i _ _ => rfl, fun nd0 h0 => ?_⟩
  exact ⟨⟨nd0, h0, rfl, rfl, rfl⟩, fun m _ => rfl⟩

theorem childNode_firstTriId (l : List Tri) (f n : Nat) :
    (childNode l f n).firstTriId = f := rfl

theorem childNode_numTris (l : List Tri) (f n : Nat) :
    (childNode l f n).numTris = n := rfl

theorem childNode_bmin (l : List Tri) (f n : Nat) :
    (childNode l f n).bmin = (growList Node.dflt (sliceOf l f n)).bmin := rfl

theorem childNode_bmax (l : List Tri) (f n : Nat) :
    (childNode l f n).bmax = (growList Node.dflt (sliceOf l f n)).bmax := rfl

theorem interior_numTris (nd : Node) (c : Nat) :
    (interiorOf nd c).numTris = 0 := rfl

theorem interior_firstTriId (nd : Node) (c : Nat) :
    (interiorOf nd c).firstTriId = nd.firstTriId := rfl

theorem interior_bmin (nd : Node) (c : Nat) :
    (interiorOf nd c).bmin = nd.bmin := rfl

theorem interior_bmax (nd : Node) (c : Nat) :
    (interiorOf nd c).bmax = nd.bmax := rfl

theorem cont_other {N : Nat} {nodes : List Node} {tris tris' : List Tri}
    {idx p : Nat} {nd ndp : Node}
    (hcount : ∀ k, leafCount nodes k = if k < N then 1 else 0)
    (hget : nodes.get? idx = some nd) (hnum : 0 < nd.numTris)
    (hout : ∀ m, m < nd.firstTriId ∨ nd.firstTriId + nd.numTris ≤ m →
      tris'.get? m = tris.get? m)
    (hp : nodes.get? p = some ndp) (hne : p ≠ idx) :
    sliceOf tris' ndp.firstTriId ndp.numTris
      = sliceOf tris ndp.firstTriId ndp.numTris := by
  apply sliceOf_congr
  intro m hm1 hm2
  by_cases hnp : 0 < ndp.numTris
  · apply hout
    by_contra hc
    push_neg at hc
    exact leaf_ranges_disjoint hcount hp hget hne hnp hnum ⟨hm1, hm2⟩
      ⟨by omega, by omega⟩
  · omega

theorem GI_partition {N : Nat} {st : BState} {idx : Nat} {nd : Node}
    {tris' : List Tri}
    (hGI : GI N st) (hget : st.nodes.get? idx = some nd)
    (hplen : tris'.length = st.tris.length) (hpperm : tris'.Perm st.tris)
    (hout : ∀ m, m < nd.firstTriId ∨ nd.firstTriId + nd.numTris ≤ m →
      tris'.get? m = st.tris.get? m) :
    GI N { st with tris := tris' } := by
  obtain ⟨hlen, hcount, hcont, hnn⟩ := hGI
  refine ⟨hplen.trans hlen, hcount, ?_, fun t ht => hnn t (hpperm.subset ht)⟩
  intro p ndp hp hnp t ht
  by_cases hnum : 0 < nd.numTris
  · by_cases hpe : p = idx
    · subst hpe
      have hnd : ndp = nd := by
        rw [hget] at hp
        exact (Option.some.injEq _ _).mp hp.symm ▸ rfl
      subst hnd
      have hsp := slice_perm_of_perm_outside hpperm hout
      exact hcont p ndp hp hnp t (hsp.subset ht)
    · rw [cont_other hcount hget hnum hout hp hpe] at ht
      exact hcont p ndp hp hnp t ht
  · have htr : tris' = st.tris := by
      apply List.ext_get?
      intro r
      exact hout r (by omega)
    rw [htr] at ht
    exact hcont p ndp hp hnp t ht

theorem cont_child {tris' : List Tri} (f n : Nat)
    (hnn : ∀ t ∈ tris', Tri.posNotNan t = true) :
    ∀ t ∈ sliceOf tris' f n, triInNode (childNode tris' f n) t = true := by
  intro t ht
  have h1 := growList_contains (sliceOf tris' f n) Node.dflt bnn_dflt
    (fun u hu => hnn u (mem_sliceOf hu)) t ht
  rw [triInNode_congr _ (growList Node.dflt (sliceOf tris' f n)) t
    (childNode_bmin _ _ _) (childNode_bmax _ _ _)]
  exact h1

theorem leafCount_split {nodes : List Node} {idx : Nat} {nd ndI a b : Node}
    {N : Nat}
    (hget : nodes.get? idx = some nd)
    (hcount : ∀ k, leafCount nodes k = if k < N then 1 else 0)
    (hI : ndI.numTris = 0)
    (hsum : ∀ k, leafContrib k a + leafContrib k b = leafContrib k nd) :
    ∀ k, leafCount ((nodes.set idx ndI) ++ [a, b]) k
      = if k < N then 1 else 0 := by
  intro k
  rw [leafCount_append, leafCount_pair]
  have hset := sum_map_set (leafContrib k) nodes idx nd ndI hget
  have hcI : leafContrib k ndI = 0 := by
    rw [contrib_eval, hI]
    simp
  have hc := hcount k
  have hs := hsum k
  unfold leafCount at *
  omega

theorem splitNode_spec :
    ∀ (fuel idx : Nat) (st st' : BState) (N : Nat),
      splitNode fuel idx st = .ok st' → GI N st →
      GI N st' ∧ SplitFrame idx st st' := by
  intro fuel
  induction fuel with
  | zero => intro idx st st' N h _; simp [splitNode] at h
  | succ fuel ih =>
    intro idx st st' N h hGI
    rw [splitNode] at h
    split at h
    · exact absurd h (by simp)
    · next nd hget =>
      have hidxlt : idx < st.nodes.length := get?_some_lt hget
      split at h
      · simp only [Except.ok.injEq] at h
        subst h
        exact ⟨hGI, frame_refl idx st⟩
      · next hble =>
        split at h
        · exact absurd h (by simp)
        · next hfn =>
          split at h
          · exact absurd h (by simp)
          · next i tris' hpart =>
            obtain ⟨hplen, hpperm, hii, hij, hout0⟩ :=
              partitionLoop_spec _ _ _ _ _ _ _ _ hpart (by omega)
            have hij2 : i ≤ nd.firstTriId + nd.numTris := by omega
            have houtn : ∀ m,
                m < nd.firstTriId ∨ nd.firstTriId + nd.numTris ≤ m →
                tris'.get? m = st.tris.get? m := fun m hm => hout0 m (by omega)
            split at h
            · next hac =>
              simp only [Except.ok.injEq] at h
              subst h
              refine ⟨GI_partition hGI hget hplen hpperm houtn, ?_⟩
              refine ⟨hplen, hpperm, le_refl _, fun j _ _ => rfl,
                fun nd0 h0 => ?_⟩
              obtain rfl : nd0 = nd := by
                rw [hget] at h0
                exact (Option.some.inj h0).symm
              exact ⟨⟨nd0, h0, rfl, rfl, rfl⟩, fun m hm => houtn m hm⟩
            · next hac =>
              push_neg at hac
              have hfirst_lt : nd.firstTriId < i := by omega
              have hi_lt : i < nd.firstTriId + nd.numTris := by omega
              have hnum_pos : 0 < nd.numTris := by omega
              split at h
              · exact absurd h (by simp)
              · next st'' hrec =>
                have hnnmid : ∀ t ∈ tris', Tri.posNotNan t = true :=
                  fun t ht => hGI.2.2.2 t (hpperm.subset ht)
                have hGImid : GI N
                    { tris := tris'
                      nodes := (st.nodes.set idx
                          (interiorOf nd st.nodes.length))
                        ++ [childNode tris' nd.firstTriId (i - nd.firstTriId),
                            childNode tris' i
                              (nd.numTris - (i - nd.firstTriId))] } := by
                  refine ⟨hplen.trans hGI.1, ?_, ?_, hnnmid⟩
                  · apply leafCount_split hget hGI.2.1 (interior_numTris _ _)
                    intro k
                    rw [contrib_eval, contrib_eval, contrib_eval,
                      childNode_firstTriId, childNode_numTris,
                      childNode_firstTriId, childNode_numTris]
                    split_ifs <;> omega
                  · intro p ndp hp hnp t ht
                    by_cases hplt : p < st.nodes.length
                    · rw [get?_append_left _ _ p (by simp; omega)] at hp
                      by_cases hpidx : p = idx
                      · subst hpidx
                        rw [set_get?_self _ _ _ hidxlt] at hp
                        obtain rfl : ndp = interiorOf nd st.nodes.length :=
                          (Option.some.inj hp).symm
                        rw [interior_numTris] at hnp
                        exact absurd hnp (lt_irrefl 0)
                      · rw [set_get?_ne _ _ _ _
                            (fun hh => hpidx hh.symm)] at hp
                        rw [cont_other hGI.2.1 hget hnum_pos houtn hp
                          hpidx] at ht
                        exact hGI.2.2.1 p ndp hp hnp t ht
                    · have hsl : (st.nodes.set idx
                          (interiorOf nd st.nodes.length)).length
                          = st.nodes.length := List.length_set _ _ _
                      rcases (by omega : p = st.nodes.length
                          ∨ p = st.nodes.length + 1
                          ∨ st.nodes.length + 2 ≤ p) with hp2 | hp2 | hp2
                      · subst hp2
                        have ea := get?_append_right
                          (st.nodes.set idx (interiorOf nd st.nodes.length))
                          [childNode tris' nd.firstTriId (i - nd.firstTriId),
                            childNode tris' i
                              (nd.numTris - (i - nd.firstTriId))] 0
                        rw [hsl, Nat.add_zero] at ea
                        rw [ea] at hp
                        obtain rfl : ndp = childNode tris' nd.firstTriId
                            (i - nd.firstTriId) := (Option.some.inj hp).symm
                        rw [childNode_firstTriId, childNode_numTris] at ht
                        exact cont_child _ _ hnnmid t ht
                      · subst hp2
                        have eb := get?_append_right
                          (st.nodes.set idx (interiorOf nd st.nodes.length))
                          [childNode tris' nd.firstTriId (i - nd.firstTriId),
                            childNode tris' i
                              (nd.numTris - (i - nd.firstTriId))] 1
                        rw [hsl] at eb
                        rw [eb] at hp
                        obtain rfl : ndp = childNode tris' i
                            (nd.numTris - (i - nd.firstTriId)) :=
                          (Option.some.inj hp).symm
                        rw [childNode_firstTriId, childNode_numTris] at ht
                        exact cont_child _ _ hnnmid t ht
                      · rw [List.get?_eq_none.mpr (by simp [hsl]; omega)] at hp
                        exact Option.noConfusion hp
                obtain ⟨hGI'', frame1⟩ := ih _ _ _ N hrec hGImid
                obtain ⟨hGIfin, frame2⟩ := ih _ _ _ N h hGI''
                have hml1 := frame1.2.2.1
                have hml2 := frame2.2.2.1
                simp only [List.length_append, List.length_set,
                  List.length_cons, List.length_nil] at hml1
                refine ⟨hGIfin, ?_, ?_, ?_, ?_, ?_⟩
                · exact (frame2.1.trans frame1.1).trans hplen
                · exact (frame2.2.1.trans frame1.2.1).trans hpperm
                · omega
                · intro j hj hjne
                  have e1 : ((st.nodes.set idx
                        (interiorOf nd st.nodes.length))
                      ++ [childNode tris' nd.firstTriId (i - nd.firstTriId),
                          childNode tris' i
                            (nd.numTris - (i - nd.firstTriId))]).get? j
                      = st.nodes.get? j := by
                    rw [get?_append_left _ _ j (by simp; omega),
                      set_get?_ne _ _ _ _ (fun hh => hjne hh.symm)]
                  exact ((frame2.2.2.2.1 j (by omega) (by omega)).trans
                    (frame1.2.2.2.1 j (by simp; omega) (by omega))).trans e1
                · intro nd0 h0
                  have hnd0 : nd = nd0 := by
                    rw [hget] at h0
                    exact Option.some.inj h0
                  subst hnd0
                  have hsl : (st.nodes.set idx
                      (interiorOf nd st.nodes.length)).length
                      = st.nodes.length := List.length_set _ _ _
                  have eI : ((st.nodes.set idx
                        (interiorOf nd st.nodes.length))
                      ++ [childNode tris' nd.firstTriId (i - nd.firstTriId),
                          childNode tris' i
                            (nd.numTris - (i - nd.firstTriId))]).get? idx
                      = some (interiorOf nd st.nodes.length) := by
                    rw [get?_append_left _ _ idx (by simp; omega),
                      set_get?_self _ _ _ hidxlt]
                  have eIfin := (frame2.2.2.2.1 idx (by omega)
                      (by omega)).trans
                    ((frame1.2.2.2.1 idx (by simp; omega) (by omega)).trans eI)
                  refine ⟨⟨_, eIfin, interior_bmin _ _, interior_bmax _ _,
                    interior_firstTriId _ _⟩, ?_⟩
                  intro m hm
                  have ea := get?_append_right
                    (st.nodes.set idx (interiorOf nd st.nodes.length))
                    [childNode tris' nd.firstTriId (i - nd.firstTriId),
                      childNode tris' i
                        (nd.numTris - (i - nd.firstTriId))] 0
                  rw [hsl, Nat.add_zero] at ea
                  obtain ⟨-, houtA⟩ := frame1.2.2.2.2 _ ea
                  have e2 := houtA m (by
                    rw [childNode_firstTriId, childNode_numTris]
                    omega)
                  have eb := get?_append_right
                    (st.nodes.set idx (interiorOf nd st.nodes.length))
                    [childNode tris' nd.firstTriId (i - nd.firstTriId),
                      childNode tris' i
                        (nd.numTris - (i - nd.firstTriId))] 1
                  rw [hsl] at eb
                  have eb'' := (frame1.2.2.2.1 (st.nodes.length + 1)
                    (by simp) (by omega)).trans eb
                  obtain ⟨-, houtB⟩ := frame2.2.2.2.2 _ eb''
                  have e3 := houtB m (by
                    rw [childNode_firstTriId, childNode_numTris]
                    omega)
                  rw [e3, e2, houtn m hm]

theorem noNan_mem {l : List Tri} (h : noNanTris l = true) :
    ∀ t ∈ l, Tri.posNotNan t = true := by
  simpa [noNanTris, List.all_eq_true] using h

theorem wf_mem {l : List Tri} (h : wfTris l = true) :
    ∀ t ∈ l, Tri.posWf t = true := by
  simpa [wfTris, List.all_eq_true] using h

theorem sliceOf_zero_len (l : List Tri) : sliceOf l 0 l.length = l := by
  simp [sliceOf]

theorem GI_init (tris : List Tri) (hnn : noNanTris tris = true) :
    GI tris.length
      { tris := tris
        nodes := [{ growList Node.dflt tris with
          firstTriId := 0, numTris := tris.length }] } := by
  have hmem := noNan_mem hnn
  have e1 : ({ growList Node.dflt tris with
      firstTriId := 0, numTris := tris.length } : Node).numTris
      = tris.length := rfl
  have e2 : ({ growList Node.dflt tris with
      firstTriId := 0, numTris := tris.length } : Node).firstTriId = 0 := rfl
  refine ⟨rfl, ?_, ?_, hmem⟩
  · intro k
    simp only [leafCount, List.map_cons, List.map_nil, List.sum_cons,
      List.sum_nil, Nat.add_zero]
    rw [contrib_eval, e1, e2]
    split_ifs <;> omega
  · intro p ndp hp hnp t ht
    cases p with
    | zero =>
      simp only [List.get?_cons_zero, Option.some.injEq] at hp
      obtain rfl : ndp = _ := hp.symm
      rw [e1, e2, sliceOf_zero_len] at ht
      have h1 := growList_contains tris Node.dflt bnn_dflt hmem t ht
      exact (triInNode_congr _ (growList Node.dflt tris) t rfl rfl).trans h1
    | succ p =>
      simp only [List.get?_cons_succ, List.get?_nil] at hp
      exact Option.noConfusion hp

/-- C1: after `BVH::build` completes on a scene whose vertex coordinates are
representable non-NaN `f32` values, the triangle list is a permutation of
the input, the leaf triangle ranges partition `[0, N)` (each index is
covered by exactly one leaf), every triangle of a leaf's range lies inside
that leaf's AABB within the claimed `1e-4` tolerance (here even exactly,
which implies the tolerance), and the root node's AABB encloses every
triangle.  The `wfTris` hypothesis only excludes out-of-range exact
rationals the `f32` type cannot hold; every real `f32` input satisfies it.
The no-NaN hypothesis is necessary: see the counterexample theorem. -/
theorem bvh_build_invariants (tris : List Tri) (st : BState)
    (hnn : noNanTris tris = true) (hwf : wfTris tris = true)
    (hbuild : buildE tris = .ok st) :
    st.tris.Perm tris
      ∧ (∀ k, leafCount st.nodes k = if k < tris.length then 1 else 0)
      ∧ (∀ p nd, st.nodes.get? p = some nd → 0 < nd.numTris →
          ∀ t ∈ sliceOf st.tris nd.firstTriId nd.numTris,
            triInNodeEps nd t = true)
      ∧ (∀ root', st.nodes.get? 0 = some root' →
          ∀ t ∈ st.tris, triInNode root' t = true) := by
  have hmem := noNan_mem hnn
  have hwfm := wf_mem hwf
  have h0 : splitNode (tris.length + 1) 0
      { tris := tris
        nodes := [{ growList Node.dflt tris with
          firstTriId := 0, numTris := tris.length }] } = .ok st := hbuild
  obtain ⟨hGI, hframe⟩ := splitNode_spec _ _ _ _ tris.length h0 (GI_init tris hnn)
  refine ⟨hframe.2.1, hGI.2.1, ?_, ?_⟩
  · intro p nd hp hpos t ht
    have hwft : Tri.posWf t = true :=
      hwfm t (hframe.2.1.subset (mem_sliceOf ht))
    exact triInNode_eps hwft (hGI.2.2.1 p nd hp hpos t ht)
  · intro root' hr t ht
    obtain ⟨⟨nd', hnd', hbmin, hbmax, -⟩, -⟩ :=
      hframe.2.2.2.2 { growList Node.dflt tris with
        firstTriId := 0, numTris := tris.length } rfl
    obtain rfl : root' = nd' := by
      rw [hnd'] at hr
      exact (Option.some.inj hr).symm
    have h1 := growList_contains tris Node.dflt bnn_dflt hmem t
      (hframe.2.1.subset ht)
    exact (triInNode_congr _ (growList Node.dflt tris) t hbmin hbmax).trans h1

/-- C1 witness: the spec's scenario of two separated unit triangles.  The
build yields an interior root with two one-triangle leaves, and the theorem's
hypotheses and conclusions all hold concretely. -/
theorem bvh_build_invariants_witness :
    noNanTris [triUnit, triUnitX10] = true
      ∧ wfTris [triUnit, triUnitX10] = true
      ∧ buildE [triUnit, triUnitX10] = .ok stTwoTris
      ∧ (stTwoTris.tris.Perm [triUnit, triUnitX10]
        ∧ (∀ k, leafCount stTwoTris.nodes k
            = if k < [triUnit, triUnitX10].length then 1 else 0)
        ∧ (∀ p nd, stTwoTris.nodes.get? p = some nd → 0 < nd.numTris →
            ∀ t ∈ sliceOf stTwoTris.tris nd.firstTriId nd.numTris,
              triInNodeEps nd t = true)
        ∧ (∀ root', stTwoTris.nodes.get? 0 = some root' →
            ∀ t ∈ stTwoTris.tris, triInNode root' t = true)) :=
  ⟨by with_unfolding_all decide, by with_unfolding_all decide,
    by with_unfolding_all rfl,
    bvh_build_invariants [triUnit, triUnitX10] stTwoTris
      (by with_unfolding_all decide) (by with_unfolding_all decide)
      (by with_unfolding_all rfl)⟩

/-- C1 counterexample to the unrestricted claim: a triangle whose vertex
coordinates are NaN.  `BVH::build` completes (the NaN centroid routes every
comparison to false, every candidate split is rejected, the root stays one
leaf holding both triangles), yet the NaN triangle lies in the leaf's range
and is NOT inside the leaf's AABB even with the `1e-4` tolerance — `min`
and `max` with a NaN argument drop the NaN, so the grown box never covers
the NaN vertex and every bound comparison against NaN is false. -/
theorem bvh_build_nan_escapes_leaf :
    noNanTris [triUnit, triNan] = false
      ∧ buildE [triUnit, triNan] = .ok stNanScene
      ∧ (∀ nd ∈ stNanScene.nodes, 0 < nd.numTris)
      ∧ triNan ∈ sliceOf stNanScene.tris 0 2
      ∧ (∀ nd ∈ stNanScene.nodes, triInNodeEps nd triNan = false) := by
  refine ⟨by with_unfolding_all decide, by with_unfolding_all rfl,
    by with_unfolding_all decide, by with_unfolding_all decide,
    by with_unfolding_all decide⟩
